import Mathlib

/-!
# e1nColor: RGB / HLS colour value

A shallow embedding of `e1nColor.h` / `e1nColor.cpp`.

The C++ class holds four `float` fields `r`, `g`, `b`, `a`.  The member functions
are embedded twice.

* Exact arithmetic (`GetHue`, `ConvertRGB2HLS`, `ConvertHLS2RGB`, `NormalizeRGB`,
  ...): the fields are rationals and every arithmetic step of the source is carried
  out exactly.  Theorems about these definitions are statements about the algorithm
  in exact arithmetic.
* Binary32 arithmetic (`GetHue_f32`, `ConvertRGB2HLS_f32`, `ConvertHLS2RGB_f32`,
  `NormalizeRGB_f32`): the fields are still rationals, standing for finite binary32
  values, and every arithmetic step of the source is followed by the rounding of
  its C++ type (`rnd32` for `float`, `rnd64` for `double`), to nearest with ties to
  even.  Each operation is rounded on its own (no fused multiply-add, no extended
  intermediate precision).  Infinities and NaN are not modelled: the rounding has
  no largest exponent, so these definitions describe the source as long as no
  result exceeds the largest finite value, which holds for channels in `[0,1]`.

Member functions that read the object become functions of the colour; member
functions that mutate it become functions returning the new colour.  Division is
the total division of `ℚ`; every division of the modelled functions that could
see a zero divisor sits behind the same guard as in the source.
-/

namespace E1nColor

/-- The four member variables of `class e1nColor` (`e1nColor.h`, lines 35-38). -/
structure e1nColor where
  r : ℚ
  g : ℚ
  b : ℚ
  a : ℚ
  deriving DecidableEq, Repr

/-- An `unsigned char`. -/
abbrev Byte := Fin 256

/-- Constructor `e1nColor(unsigned char rVal, unsigned char gVal, unsigned char bVal)`
(`e1nColor.cpp`, lines 31-37). -/
def ofBytes (rVal gVal bVal : Byte) : e1nColor :=
  { r := (rVal.val : ℚ) / 255
    g := (gVal.val : ℚ) / 255
    b := (bVal.val : ℚ) / 255
    a := 1 }

/-- Constructor `e1nColor(float rVal, float gVal, float bVal, float aVal)`
(`e1nColor.cpp`, lines 57-63). -/
def ofFloats (rVal gVal bVal aVal : ℚ) : e1nColor :=
  { r := rVal, g := gVal, b := bVal, a := aVal }

/-- Member function `e1nColor::GetMaxRGB` (`e1nColor.cpp`, lines 109-114). -/
def GetMaxRGB (c : e1nColor) : ℚ :=
  if c.r ≥ c.b ∧ c.r ≥ c.g then c.r
  else if c.g ≥ c.r ∧ c.g ≥ c.b then c.g
  else c.b

/-- Member function `e1nColor::GetMinRGB` (`e1nColor.cpp`, lines 116-121). -/
def GetMinRGB (c : e1nColor) : ℚ :=
  if c.r ≤ c.b ∧ c.r ≤ c.g then c.r
  else if c.g ≤ c.r ∧ c.g ≤ c.b then c.g
  else c.b

/-- Member function `e1nColor::GetHue` (`e1nColor.cpp`, lines 127-166). -/
def GetHue (c : e1nColor) : ℚ :=
  let max := GetMaxRGB c
  let min := GetMinRGB c
  let delta := max - min
  let Rc := if delta = 0 then 0 else (max - c.r) / delta
  let Gc := if delta = 0 then 0 else (max - c.g) / delta
  let Bc := if delta = 0 then 0 else (max - c.b) / delta
  let h :=
    if c.r = max then 60 * (Bc - Gc)
    else if c.g = max then 60 * (2 + Rc - Bc)
    else 60 * (4 + Gc - Rc)
  let h := if h < 0 then h + 360 else h
  h / 360

/-- Member function `e1nColor::GetSat` (`e1nColor.cpp`, lines 168-178). -/
def GetSat (c : e1nColor) : ℚ :=
  let max := GetMaxRGB c
  let min := GetMinRGB c
  max - min

/-- Member function `e1nColor::GetVal` (`e1nColor.cpp`, lines 180-190). -/
def GetVal (c : e1nColor) : ℚ :=
  let max := GetMaxRGB c
  let min := GetMinRGB c
  (max + min) / 2

/-- Member function `e1nColor::ConvertRGB2HLS` (`e1nColor.cpp`, lines 230-278): the colour after
the call.  The source recomputes hue, lightness and saturation from scratch
(it does not call `GetHue` / `GetVal` / `GetSat`), and so does this definition. -/
def ConvertRGB2HLS (c : e1nColor) : e1nColor :=
  let max := GetMaxRGB c
  let min := GetMinRGB c
  let del := max - min
  let Rc := if del = 0 then 0 else (max - c.r) / del
  let Gc := if del = 0 then 0 else (max - c.g) / del
  let Bc := if del = 0 then 0 else (max - c.b) / del
  let v := (max + min) / 2
  let s := del
  let h :=
    if c.r = max then 60 * (Bc - Gc)
    else if c.g = max then 60 * (2 + Rc - Bc)
    else 60 * (4 + Gc - Rc)
  let h := if h < 0 then h + 360 else h
  let h := h / 360
  { c with r := h, g := v, b := s }

/-- Member function `e1nColor::ConvertHLS2RGB` (`e1nColor.cpp`, lines 286-357): the colour after
the call. -/
def ConvertHLS2RGB (c : e1nColor) : e1nColor :=
  let h := c.r
  let v := c.g
  let s := c.b
  let min := ((2 * v) - s) * (1 / 2)
  let max := s + min
  if s = 0 then
    { c with r := v, g := v, b := v }
  else
    let h := h * 360
    if h ≥ 0 ∧ h < 60 then
      let h := h / 60
      { c with r := max, g := (h * s) + min, b := min }
    else if h ≥ 60 ∧ h < 120 then
      let h := 1 - ((h - 60) / 60)
      { c with r := (h * s) + min, g := max, b := min }
    else if h ≥ 120 ∧ h < 180 then
      let h := (h - 120) / 60
      { c with r := min, g := max, b := (h * s) + min }
    else if h ≥ 180 ∧ h < 240 then
      let h := 1 - ((h - 180) / 60)
      { c with r := min, g := (h * s) + min, b := max }
    else if h ≥ 240 ∧ h < 300 then
      let h := (h - 240) / 60
      { c with r := (h * s) + min, g := min, b := max }
    else
      let h := 1 - ((h - 300) / 60)
      { c with r := max, g := min, b := (h * s) + min }

/-! ## Byte interface, operators and miscellaneous members -/

/-- An OpenCV `Vec3b`: three `unsigned char` entries, indexed 0, 1, 2. -/
structure Vec3b where
  v0 : Byte
  v1 : Byte
  v2 : Byte
  deriving DecidableEq, Repr

/-- Constructor `e1nColor(Vec3b &someRGB_888)` (`e1nColor.cpp`, lines 66-72). -/
def ofVec3b (someRGB_888 : Vec3b) : e1nColor :=
  { r := (someRGB_888.v0.val : ℚ) / 255
    g := (someRGB_888.v1.val : ℚ) / 255
    b := (someRGB_888.v2.val : ℚ) / 255
    a := 1 }

/-- The C library function `round`: nearest integer, halfway cases away from zero. -/
def round (x : ℚ) : ℤ :=
  if 0 ≤ x then ⌊x + 1 / 2⌋ else ⌈x - 1 / 2⌉

/-- The conversion `(unsigned char)` applied to an integral value.  For a value in
`0 .. 255` it is the value itself; outside that range C++ leaves the result
undefined and this model reduces modulo 256. -/
def toByte (z : ℤ) : Byte :=
  ⟨(z % 256).toNat, by
    have h1 : 0 ≤ z % 256 := Int.emod_nonneg z (by norm_num)
    have h2 : z % 256 < 256 := Int.emod_lt_of_pos z (by norm_num)
    omega⟩

/-- Member function `e1nColor::GetRedByte` (`e1nColor.h`, line 193). -/
def GetRedByte (c : e1nColor) : Byte := toByte (round (c.r * 255))

/-- Member function `e1nColor::GetGreenByte` (`e1nColor.h`, line 196). -/
def GetGreenByte (c : e1nColor) : Byte := toByte (round (c.g * 255))

/-- Member function `e1nColor::GetBlueByte` (`e1nColor.h`, line 199). -/
def GetBlueByte (c : e1nColor) : Byte := toByte (round (c.b * 255))

/-- Member function `e1nColor::GetAlphaByte` (`e1nColor.h`, line 202). -/
def GetAlphaByte (c : e1nColor) : Byte := toByte (round (c.a * 255))

/-- Member function `e1nColor::SetRed(const unsigned char)` (`e1nColor.h`, line 209). -/
def SetRed_uchar (c : e1nColor) (someByte : Byte) : e1nColor :=
  { c with r := (someByte.val : ℚ) / 255 }

/-- Member function `e1nColor::SetGreen(const unsigned char)` (`e1nColor.h`, line 212). -/
def SetGreen_uchar (c : e1nColor) (someByte : Byte) : e1nColor :=
  { c with g := (someByte.val : ℚ) / 255 }

/-- Member function `e1nColor::SetBlue(const unsigned char)` (`e1nColor.h`, line 215). -/
def SetBlue_uchar (c : e1nColor) (someByte : Byte) : e1nColor :=
  { c with b := (someByte.val : ℚ) / 255 }

/-- Member function `e1nColor::SetAlpha(const unsigned char)` (`e1nColor.h`, line 218). -/
def SetAlpha_uchar (c : e1nColor) (someByte : Byte) : e1nColor :=
  { c with a := (someByte.val : ℚ) / 255 }

/-- Member function `e1nColor::GetVec3b` (`e1nColor.cpp`, lines 216-221). -/
def GetVec3b (c : e1nColor) : Vec3b :=
  { v0 := toByte (round (c.r * 255))
    v1 := toByte (round (c.g * 255))
    v2 := toByte (round (c.b * 255)) }

/-- Assignment `e1nColor::operator =` (`e1nColor.h`, lines 164-171): the value of
`*this` after `*this = someColor`.  The body assigns `r`, `g` and `b`. -/
def operator_assign (this someColor : e1nColor) : e1nColor :=
  { this with r := someColor.r, g := someColor.g, b := someColor.b }

/-- Equality `e1nColor::operator ==` (`e1nColor.h`, lines 177-180). -/
def operator_eq (this someColor : e1nColor) : Bool :=
  decide (this.r = someColor.r) && decide (this.g = someColor.g) &&
    decide (this.b = someColor.b)

/-- Inequality `e1nColor::operator !=` (`e1nColor.h`, lines 183-186). -/
def operator_ne (this someColor : e1nColor) : Bool :=
  decide (this.r ≠ someColor.r) || decide (this.g ≠ someColor.g) ||
    decide (this.b ≠ someColor.b)

/-- Member function `e1nColor::SetHue` (`e1nColor.cpp`, lines 196-199): empty body. -/
def SetHue (c : e1nColor) (_newHue : ℚ) : e1nColor := c

/-- Member function `e1nColor::SetSat` (`e1nColor.cpp`, lines 201-204): empty body. -/
def SetSat (c : e1nColor) (_newSat : ℚ) : e1nColor := c

/-- Member function `e1nColor::SetVal` (`e1nColor.cpp`, lines 207-210): empty body. -/
def SetVal (c : e1nColor) (_newVal : ℚ) : e1nColor := c

/-- Member function `e1nColor::NormalizeRGB` (`e1nColor.cpp`, lines 363-372): the
colour after the call, with the total division of `ℚ`. -/
def NormalizeRGB (c : e1nColor) : e1nColor :=
  let max := GetMaxRGB c
  let delta := 1 / max
  { c with r := c.r * delta, g := c.g * delta, b := c.b * delta }

/-! ## Checked division

The same bodies once more, with every `/` replaced by a division that fails on a
zero divisor, so that "this code divides by zero" is the result `none`. -/

/-- Division that reports a zero divisor. -/
def checkedDiv (x y : ℚ) : Option ℚ :=
  if y = 0 then none else some (x / y)

/-- The complement block shared verbatim by `GetHue` (`e1nColor.cpp`, lines
130-150) and `ConvertRGB2HLS` (lines 233-253), with checked division: the triple
`(Rc, Gc, Bc)`. -/
def complements_checked (c : e1nColor) : Option (ℚ × ℚ × ℚ) :=
  let max := GetMaxRGB c
  let min := GetMinRGB c
  let delta := max - min
  if delta = 0 then
    some (0, 0, 0)
  else do
    let Rc ← checkedDiv (max - c.r) delta
    let Gc ← checkedDiv (max - c.g) delta
    let Bc ← checkedDiv (max - c.b) delta
    pure (Rc, Gc, Bc)

/-- Member function `e1nColor::GetHue` (`e1nColor.cpp`, lines 127-166) with checked
division. -/
def GetHue_checked (c : e1nColor) : Option ℚ := do
  let max := GetMaxRGB c
  let (Rc, Gc, Bc) ← complements_checked c
  let h :=
    if c.r = max then 60 * (Bc - Gc)
    else if c.g = max then 60 * (2 + Rc - Bc)
    else 60 * (4 + Gc - Rc)
  let h := if h < 0 then h + 360 else h
  checkedDiv h 360

/-- Member function `e1nColor::ConvertRGB2HLS` (`e1nColor.cpp`, lines 230-278) with
checked division. -/
def ConvertRGB2HLS_checked (c : e1nColor) : Option e1nColor := do
  let max := GetMaxRGB c
  let min := GetMinRGB c
  let del := max - min
  let (Rc, Gc, Bc) ← complements_checked c
  let v ← checkedDiv (max + min) 2
  let s := del
  let h :=
    if c.r = max then 60 * (Bc - Gc)
    else if c.g = max then 60 * (2 + Rc - Bc)
    else 60 * (4 + Gc - Rc)
  let h := if h < 0 then h + 360 else h
  let h ← checkedDiv h 360
  pure { c with r := h, g := v, b := s }

/-- Member function `e1nColor::NormalizeRGB` (`e1nColor.cpp`, lines 363-372) with
checked division. -/
def NormalizeRGB_checked (c : e1nColor) : Option e1nColor := do
  let max := GetMaxRGB c
  let delta ← checkedDiv 1 max
  pure { c with r := c.r * delta, g := c.g * delta, b := c.b * delta }

/-! ## Binary32 arithmetic

Finite binary floating-point values are rationals; `rnd p emin` rounds a rational
to precision `p` with least normal exponent `emin` (gradual underflow below it). -/

/-- Round to the nearest integer, halfway cases to the even neighbour. -/
def roundNE (t : ℚ) : ℤ :=
  let f := ⌊t⌋
  if t - f < 1 / 2 then f
  else if 1 / 2 < t - f then f + 1
  else if f % 2 = 0 then f else f + 1

/-- Rounding of a non-negative magnitude `a` to `p` significant bits: the quantum is
`2 ^ (e - p + 1)` for the exponent `e` of `a`, not below `emin`. -/
def rndAbs (p : ℕ) (emin : ℤ) (a : ℚ) : ℚ :=
  if a = 0 then 0
  else
    let e := max (Int.log 2 a) emin
    (roundNE (a / (2 : ℚ) ^ (e - (p : ℤ) + 1)) : ℚ) * (2 : ℚ) ^ (e - (p : ℤ) + 1)

/-- Rounding to a binary format, to nearest with ties to even; the sign is kept and
the magnitude rounded. -/
def rnd (p : ℕ) (emin : ℤ) (x : ℚ) : ℚ :=
  if x < 0 then -rndAbs p emin (-x) else rndAbs p emin x

/-- Rounding to binary32, the C++ type `float`. -/
def rnd32 (x : ℚ) : ℚ := rnd 24 (-126) x

/-- Rounding to binary64, the C++ type `double`. -/
def rnd64 (x : ℚ) : ℚ := rnd 53 (-1022) x

/-- Member function `e1nColor::GetHue` (`e1nColor.cpp`, lines 127-166) in the
arithmetic of the source: every `float` operation is rounded to binary32; the two
branches written with the `double` literals `2.0` and `4.0` are evaluated in
binary64 and rounded to binary32 by the assignment to `h`. -/
def GetHue_f32 (c : e1nColor) : ℚ :=
  let max := GetMaxRGB c
  let min := GetMinRGB c
  let delta := rnd32 (max - min)
  let Rc := if delta = 0 then 0 else rnd32 (rnd32 (max - c.r) / delta)
  let Gc := if delta = 0 then 0 else rnd32 (rnd32 (max - c.g) / delta)
  let Bc := if delta = 0 then 0 else rnd32 (rnd32 (max - c.b) / delta)
  let h :=
    if c.r = max then rnd32 (60 * rnd32 (Bc - Gc))
    else if c.g = max then rnd32 (rnd64 (60 * rnd64 (rnd64 (2 + Rc) - Bc)))
    else rnd32 (rnd64 (60 * rnd64 (rnd64 (4 + Gc) - Rc)))
  let h := if h < 0 then rnd32 (h + 360) else h
  rnd32 (h / 360)

/-- Member function `e1nColor::ConvertRGB2HLS` (`e1nColor.cpp`, lines 230-278) in
the arithmetic of the source (binary32, with the two `double` branches as in
`GetHue_f32`). -/
def ConvertRGB2HLS_f32 (c : e1nColor) : e1nColor :=
  let max := GetMaxRGB c
  let min := GetMinRGB c
  let del := rnd32 (max - min)
  let Rc := if del = 0 then 0 else rnd32 (rnd32 (max - c.r) / del)
  let Gc := if del = 0 then 0 else rnd32 (rnd32 (max - c.g) / del)
  let Bc := if del = 0 then 0 else rnd32 (rnd32 (max - c.b) / del)
  let v := rnd32 (rnd32 (max + min) / 2)
  let s := del
  let h :=
    if c.r = max then rnd32 (60 * rnd32 (Bc - Gc))
    else if c.g = max then rnd32 (rnd64 (60 * rnd64 (rnd64 (2 + Rc) - Bc)))
    else rnd32 (rnd64 (60 * rnd64 (rnd64 (4 + Gc) - Rc)))
  let h := if h < 0 then rnd32 (h + 360) else h
  let h := rnd32 (h / 360)
  { c with r := h, g := v, b := s }

theorem GetMaxRGB_mem (c : e1nColor) :
    GetMaxRGB c = c.r ∨ GetMaxRGB c = c.g ∨ GetMaxRGB c = c.b := by
  unfold GetMaxRGB
  split_ifs <;> simp

theorem GetMinRGB_mem (c : e1nColor) :
    GetMinRGB c = c.r ∨ GetMinRGB c = c.g ∨ GetMinRGB c = c.b := by
  unfold GetMinRGB
  split_ifs <;> simp

theorem le_GetMaxRGB (c : e1nColor) :
    c.r ≤ GetMaxRGB c ∧ c.g ≤ GetMaxRGB c ∧ c.b ≤ GetMaxRGB c := by
  unfold GetMaxRGB
  split_ifs with h1 h2
  · exact ⟨le_refl _, h1.2, h1.1⟩
  · exact ⟨h2.1, le_refl _, h2.2⟩
  · simp only [ge_iff_le, not_and, not_le] at h1 h2
    refine ⟨?_, ?_, le_refl _⟩
    · by_contra hr
      push_neg at hr
      have hg := h1 hr.le
      have := h2 hg.le
      linarith
    · by_contra hg
      push_neg at hg
      rcases le_or_lt c.r c.g with hrg | hrg
      · have := h2 hrg
        linarith
      · have := h1 (by linarith)
        linarith

theorem GetMinRGB_le (c : e1nColor) :
    GetMinRGB c ≤ c.r ∧ GetMinRGB c ≤ c.g ∧ GetMinRGB c ≤ c.b := by
  unfold GetMinRGB
  split_ifs with h1 h2
  · exact ⟨le_refl _, h1.2, h1.1⟩
  · exact ⟨h2.1, le_refl _, h2.2⟩
  · simp only [not_and, not_le] at h1 h2
    refine ⟨?_, ?_, le_refl _⟩
    · by_contra hr
      push_neg at hr
      have hg := h1 hr.le
      have := h2 hg.le
      linarith
    · by_contra hg
      push_neg at hg
      rcases le_or_lt c.g c.r with hrg | hrg
      · have := h2 hrg
        linarith
      · have := h1 (by linarith)
        linarith

/-- The channels are not all equal exactly when `max - min` is non-zero. -/
theorem delta_ne_zero_iff (c : e1nColor) :
    GetMaxRGB c - GetMinRGB c ≠ 0 ↔ ¬ (c.r = c.g ∧ c.g = c.b) := by
  obtain ⟨hr, hg, hb⟩ := le_GetMaxRGB c
  obtain ⟨mr, mg, mb⟩ := GetMinRGB_le c
  constructor
  · rintro hd ⟨h1, h2⟩
    apply hd
    rcases GetMaxRGB_mem c with hM | hM | hM <;>
      rcases GetMinRGB_mem c with hm | hm | hm <;> rw [hM, hm] <;> linarith
  · intro hne hd
    apply hne
    constructor <;> linarith

theorem delta_pos (c : e1nColor) (hd : GetMaxRGB c - GetMinRGB c ≠ 0) :
    0 < GetMaxRGB c - GetMinRGB c := by
  have h1 := (le_GetMaxRGB c).1
  have h2 := (GetMinRGB_le c).1
  rcases lt_or_eq_of_le (show (0 : ℚ) ≤ GetMaxRGB c - GetMinRGB c by linarith) with h | h
  · exact h
  · exact absurd h.symm hd

/-- C4. Extrema correctness: `GetMaxRGB` is one of the three channels and is at
least each of them; `GetMinRGB` is one of the three channels and is at most each
of them. -/
theorem extrema_correct (c : e1nColor) :
    (GetMaxRGB c = c.r ∨ GetMaxRGB c = c.g ∨ GetMaxRGB c = c.b) ∧
    (GetMaxRGB c ≥ c.r ∧ GetMaxRGB c ≥ c.g ∧ GetMaxRGB c ≥ c.b) ∧
    (GetMinRGB c = c.r ∨ GetMinRGB c = c.g ∨ GetMinRGB c = c.b) ∧
    (GetMinRGB c ≤ c.r ∧ GetMinRGB c ≤ c.g ∧ GetMinRGB c ≤ c.b) :=
  ⟨GetMaxRGB_mem c, le_GetMaxRGB c, GetMinRGB_mem c, GetMinRGB_le c⟩

/-- C6. Saturation and value definitions: `GetSat` is `max - min` and `GetVal`
is `(max + min) / 2`. -/
theorem sat_val_def (c : e1nColor) :
    GetSat c = GetMaxRGB c - GetMinRGB c ∧
    GetVal c = (GetMaxRGB c + GetMinRGB c) / 2 :=
  ⟨rfl, rfl⟩

/-- C5. Forward packing: after `ConvertRGB2HLS` the red field holds the hue, the
green field the lightness `GetVal` and the blue field the saturation `GetSat` of
the colour before the call; pure red `(1,0,0,1)` becomes `(0, 1/2, 1)`. -/
theorem forward_packing :
    (∀ c : e1nColor,
      (ConvertRGB2HLS c).r = GetHue c ∧
      (ConvertRGB2HLS c).g = GetVal c ∧
      (ConvertRGB2HLS c).b = GetSat c) ∧
    ConvertRGB2HLS (ofFloats 1 0 0 1) = ofFloats 0 (1 / 2) 1 1 := by
  refine ⟨fun c => ⟨rfl, rfl, rfl⟩, ?_⟩
  norm_num [ConvertRGB2HLS, GetMaxRGB, GetMinRGB, ofFloats]

/-- C9. Alpha is untouched by both space conversions. -/
theorem alpha_untouched (c : e1nColor) :
    (ConvertRGB2HLS c).a = c.a ∧ (ConvertHLS2RGB c).a = c.a := by
  refine ⟨rfl, ?_⟩
  unfold ConvertHLS2RGB
  simp only []
  split_ifs <;> rfl

/-- C7. Inverse achromatic branch: when the blue field (packed saturation) is 0,
`ConvertHLS2RGB` sets red, green and blue to the previous green field (packed
lightness), whatever the red field was. -/
theorem inverse_achromatic (c : e1nColor) (hs : c.b = 0) :
    (ConvertHLS2RGB c).r = c.g ∧ (ConvertHLS2RGB c).g = c.g ∧
    (ConvertHLS2RGB c).b = c.g := by
  unfold ConvertHLS2RGB
  simp only [hs, if_true, and_self]

/-- Instance of `inverse_achromatic` at packed hue 7/10, lightness 3/10, saturation 0. -/
theorem inverse_achromatic_witness :
    (⟨7 / 10, 3 / 10, 0, 1⟩ : e1nColor).b = 0 ∧
    (ConvertHLS2RGB ⟨7 / 10, 3 / 10, 0, 1⟩).r = 3 / 10 ∧
    (ConvertHLS2RGB ⟨7 / 10, 3 / 10, 0, 1⟩).g = 3 / 10 ∧
    (ConvertHLS2RGB ⟨7 / 10, 3 / 10, 0, 1⟩).b = 3 / 10 :=
  ⟨rfl, inverse_achromatic ⟨7 / 10, 3 / 10, 0, 1⟩ rfl⟩

/-- C2. Achromatic fixed point: a colour with red = green = blue = x is returned
to exactly `(x, x, x)` by `ConvertRGB2HLS` followed by `ConvertHLS2RGB`; the
forward step yields saturation 0. -/
theorem achromatic_fixed_point (x a : ℚ) :
    (ConvertRGB2HLS ⟨x, x, x, a⟩).b = 0 ∧
    ConvertHLS2RGB (ConvertRGB2HLS ⟨x, x, x, a⟩) = ⟨x, x, x, a⟩ := by
  have hM : GetMaxRGB ⟨x, x, x, a⟩ = x := by simp [GetMaxRGB]
  have hm : GetMinRGB ⟨x, x, x, a⟩ = x := by simp [GetMinRGB]
  have hf : ConvertRGB2HLS ⟨x, x, x, a⟩ = ⟨0, x, 0, a⟩ := by
    simp [ConvertRGB2HLS, hM, hm]
  rw [hf]
  refine ⟨rfl, ?_⟩
  simp [ConvertHLS2RGB]

/-- C8. Hue-wheel order of the inverse: with packed lightness 1/2 and saturation
1, the packed hues 0, 1/6, 2/6, 3/6, 4/6, 5/6 are mapped to red, yellow, green,
cyan, blue and magenta. -/
theorem hue_wheel_order (a : ℚ) :
    ConvertHLS2RGB ⟨0, 1 / 2, 1, a⟩ = ⟨1, 0, 0, a⟩ ∧
    ConvertHLS2RGB ⟨1 / 6, 1 / 2, 1, a⟩ = ⟨1, 1, 0, a⟩ ∧
    ConvertHLS2RGB ⟨2 / 6, 1 / 2, 1, a⟩ = ⟨0, 1, 0, a⟩ ∧
    ConvertHLS2RGB ⟨3 / 6, 1 / 2, 1, a⟩ = ⟨0, 1, 1, a⟩ ∧
    ConvertHLS2RGB ⟨4 / 6, 1 / 2, 1, a⟩ = ⟨0, 0, 1, a⟩ ∧
    ConvertHLS2RGB ⟨5 / 6, 1 / 2, 1, a⟩ = ⟨1, 0, 1, a⟩ := by
  refine ⟨?_, ?_, ?_, ?_, ?_, ?_⟩ <;> norm_num [ConvertHLS2RGB]

/-! ## Hue -/

/-- With a non-zero `delta`, each complement `(max - x) / delta` lies in `[0, 1]`. -/
theorem complement_bounds (c : e1nColor) (x : ℚ)
    (hd : GetMaxRGB c - GetMinRGB c ≠ 0)
    (hx : x ≤ GetMaxRGB c) (hx' : GetMinRGB c ≤ x) :
    0 ≤ (GetMaxRGB c - x) / (GetMaxRGB c - GetMinRGB c) ∧
    (GetMaxRGB c - x) / (GetMaxRGB c - GetMinRGB c) ≤ 1 := by
  have hpos := delta_pos c hd
  constructor
  · exact div_nonneg (by linarith) hpos.le
  · rw [div_le_one hpos]
    linarith

theorem GetHue_bounds (c : e1nColor) (hd : GetMaxRGB c - GetMinRGB c ≠ 0) :
    0 ≤ GetHue c ∧ GetHue c < 1 := by
  obtain ⟨hr, hg, hb⟩ := le_GetMaxRGB c
  obtain ⟨mr, mg, mb⟩ := GetMinRGB_le c
  obtain ⟨R0, R1⟩ := complement_bounds c c.r hd hr mr
  obtain ⟨G0, G1⟩ := complement_bounds c c.g hd hg mg
  obtain ⟨B0, B1⟩ := complement_bounds c c.b hd hb mb
  unfold GetHue
  simp only [if_neg hd]
  generalize (GetMaxRGB c - c.r) / (GetMaxRGB c - GetMinRGB c) = Rc at R0 R1 ⊢
  generalize (GetMaxRGB c - c.g) / (GetMaxRGB c - GetMinRGB c) = Gc at G0 G1 ⊢
  generalize (GetMaxRGB c - c.b) / (GetMaxRGB c - GetMinRGB c) = Bc at B0 B1 ⊢
  have h360 : (0 : ℚ) < 360 := by norm_num
  rw [le_div_iff₀ h360, div_lt_iff₀ h360]
  split_ifs <;> constructor <;> linarith

/-- For a non-negative packed hue and a non-zero packed saturation the six sector
tests of `ConvertHLS2RGB` reduce to their upper bounds. -/
theorem ConvertHLS2RGB_of_nonneg (c : e1nColor) (hs : c.b ≠ 0) (h0 : 0 ≤ c.r) :
    ConvertHLS2RGB c =
      if c.r * 360 < 60 then
        { c with r := c.b + (2 * c.g - c.b) * (1 / 2),
                 g := c.r * 360 / 60 * c.b + (2 * c.g - c.b) * (1 / 2),
                 b := (2 * c.g - c.b) * (1 / 2) }
      else if c.r * 360 < 120 then
        { c with r := (1 - (c.r * 360 - 60) / 60) * c.b + (2 * c.g - c.b) * (1 / 2),
                 g := c.b + (2 * c.g - c.b) * (1 / 2),
                 b := (2 * c.g - c.b) * (1 / 2) }
      else if c.r * 360 < 180 then
        { c with r := (2 * c.g - c.b) * (1 / 2),
                 g := c.b + (2 * c.g - c.b) * (1 / 2),
                 b := (c.r * 360 - 120) / 60 * c.b + (2 * c.g - c.b) * (1 / 2) }
      else if c.r * 360 < 240 then
        { c with r := (2 * c.g - c.b) * (1 / 2),
                 g := (1 - (c.r * 360 - 180) / 60) * c.b + (2 * c.g - c.b) * (1 / 2),
                 b := c.b + (2 * c.g - c.b) * (1 / 2) }
      else if c.r * 360 < 300 then
        { c with r := (c.r * 360 - 240) / 60 * c.b + (2 * c.g - c.b) * (1 / 2),
                 g := (2 * c.g - c.b) * (1 / 2),
                 b := c.b + (2 * c.g - c.b) * (1 / 2) }
      else
        { c with r := c.b + (2 * c.g - c.b) * (1 / 2),
                 g := (2 * c.g - c.b) * (1 / 2),
                 b := (1 - (c.r * 360 - 300) / 60) * c.b + (2 * c.g - c.b) * (1 / 2) } := by
  have h0' : c.r * 360 ≥ 0 := by
    have : (0 : ℚ) ≤ 360 := by norm_num
    exact mul_nonneg h0 this
  unfold ConvertHLS2RGB
  simp only [if_neg hs]
  by_cases h1 : c.r * 360 < 60
  · rw [if_pos ⟨h0', h1⟩, if_pos h1]
  rw [if_neg (fun h => h1 h.2), if_neg h1]
  by_cases h2 : c.r * 360 < 120
  · rw [if_pos ⟨not_lt.1 h1, h2⟩, if_pos h2]
  rw [if_neg (fun h => h2 h.2), if_neg h2]
  by_cases h3 : c.r * 360 < 180
  · rw [if_pos ⟨not_lt.1 h2, h3⟩, if_pos h3]
  rw [if_neg (fun h => h3 h.2), if_neg h3]
  by_cases h4 : c.r * 360 < 240
  · rw [if_pos ⟨not_lt.1 h3, h4⟩, if_pos h4]
  rw [if_neg (fun h => h4 h.2), if_neg h4]
  by_cases h5 : c.r * 360 < 300
  · rw [if_pos ⟨not_lt.1 h4, h5⟩, if_pos h5]
  rw [if_neg (fun h => h5 h.2), if_neg h5]

theorem ConvertRGB2HLS_eq (c : e1nColor) :
    ConvertRGB2HLS c = ⟨GetHue c, GetVal c, GetSat c, c.a⟩ := rfl

theorem ConvertHLS2RGB_ConvertRGB2HLS_eq (c : e1nColor)
    (hd : GetMaxRGB c - GetMinRGB c ≠ 0) :
    ConvertHLS2RGB (ConvertRGB2HLS c) =
      if GetHue c * 360 < 60 then
        ⟨GetSat c + (2 * GetVal c - GetSat c) * (1 / 2),
         GetHue c * 360 / 60 * GetSat c + (2 * GetVal c - GetSat c) * (1 / 2),
         (2 * GetVal c - GetSat c) * (1 / 2), c.a⟩
      else if GetHue c * 360 < 120 then
        ⟨(1 - (GetHue c * 360 - 60) / 60) * GetSat c + (2 * GetVal c - GetSat c) * (1 / 2),
         GetSat c + (2 * GetVal c - GetSat c) * (1 / 2),
         (2 * GetVal c - GetSat c) * (1 / 2), c.a⟩
      else if GetHue c * 360 < 180 then
        ⟨(2 * GetVal c - GetSat c) * (1 / 2),
         GetSat c + (2 * GetVal c - GetSat c) * (1 / 2),
         (GetHue c * 360 - 120) / 60 * GetSat c + (2 * GetVal c - GetSat c) * (1 / 2), c.a⟩
      else if GetHue c * 360 < 240 then
        ⟨(2 * GetVal c - GetSat c) * (1 / 2),
         (1 - (GetHue c * 360 - 180) / 60) * GetSat c + (2 * GetVal c - GetSat c) * (1 / 2),
         GetSat c + (2 * GetVal c - GetSat c) * (1 / 2), c.a⟩
      else if GetHue c * 360 < 300 then
        ⟨(GetHue c * 360 - 240) / 60 * GetSat c + (2 * GetVal c - GetSat c) * (1 / 2),
         (2 * GetVal c - GetSat c) * (1 / 2),
         GetSat c + (2 * GetVal c - GetSat c) * (1 / 2), c.a⟩
      else
        ⟨GetSat c + (2 * GetVal c - GetSat c) * (1 / 2),
         (2 * GetVal c - GetSat c) * (1 / 2),
         (1 - (GetHue c * 360 - 300) / 60) * GetSat c + (2 * GetVal c - GetSat c) * (1 / 2),
         c.a⟩ := by
  rw [ConvertRGB2HLS_eq]
  have hs : (⟨GetHue c, GetVal c, GetSat c, c.a⟩ : e1nColor).b ≠ 0 := hd
  have h0 : 0 ≤ (⟨GetHue c, GetVal c, GetSat c, c.a⟩ : e1nColor).r := (GetHue_bounds c hd).1
  rw [ConvertHLS2RGB_of_nonneg _ hs h0]

theorem GetMaxRGB_eq_of (c : e1nColor) (x : ℚ) (hx : x = c.r ∨ x = c.g ∨ x = c.b)
    (h1 : c.r ≤ x) (h2 : c.g ≤ x) (h3 : c.b ≤ x) : GetMaxRGB c = x := by
  apply le_antisymm
  · rcases GetMaxRGB_mem c with h | h | h <;> rw [h] <;> assumption
  · obtain ⟨hr, hg, hb⟩ := le_GetMaxRGB c
    rcases hx with h | h | h <;> rw [h] <;> assumption

theorem GetMinRGB_eq_of (c : e1nColor) (x : ℚ) (hx : x = c.r ∨ x = c.g ∨ x = c.b)
    (h1 : x ≤ c.r) (h2 : x ≤ c.g) (h3 : x ≤ c.b) : GetMinRGB c = x := by
  apply le_antisymm
  · obtain ⟨hr, hg, hb⟩ := GetMinRGB_le c
    rcases hx with h | h | h <;> rw [h] <;> assumption
  · rcases GetMinRGB_mem c with h | h | h <;> rw [h] <;> assumption

theorem roundtrip_b_le_g_lt_r (r g b a : ℚ) (h1 : b ≤ g) (h2 : g < r) :
    ConvertHLS2RGB (ConvertRGB2HLS ⟨r, g, b, a⟩) = ⟨r, g, b, a⟩ := by
  have hM : GetMaxRGB ⟨r, g, b, a⟩ = r :=
    GetMaxRGB_eq_of _ _ (by simp) (by simp only []; linarith) (by simp only []; linarith)
      (by simp only []; linarith)
  have hm : GetMinRGB ⟨r, g, b, a⟩ = b :=
    GetMinRGB_eq_of _ _ (by simp) (by simp only []; linarith) (by simp only []; linarith)
      (by simp only []; linarith)
  have hd : 0 < r - b := by linarith
  have hd' : GetMaxRGB ⟨r, g, b, a⟩ - GetMinRGB ⟨r, g, b, a⟩ ≠ 0 := by
    rw [hM, hm]
    exact hd.ne'
  obtain ⟨Y, hYd⟩ : ∃ Y : ℚ, (r - g) / (r - b) = Y := ⟨_, rfl⟩
  have hY0 : 0 < Y := hYd ▸ div_pos (by linarith) hd
  have hY1 : Y ≤ 1 := hYd ▸ (div_le_one hd).2 (by linarith)
  have hY : Y * (r - b) = r - g := hYd ▸ div_mul_cancel₀ _ hd.ne'
  have hH : GetHue ⟨r, g, b, a⟩ * 360 = 60 * (1 - Y) := by
    simp only [GetHue, hM, hm, if_neg hd.ne', sub_self, zero_div, div_self hd.ne', hYd]
    split_ifs <;> first
      | (exfalso; linarith)
      | linarith
  rw [ConvertHLS2RGB_ConvertRGB2HLS_eq _ hd', hH]
  simp only [GetVal, GetSat, hM, hm]
  split_ifs <;> first
    | (exfalso; linarith)
    | (congr 1 <;> linarith)

theorem roundtrip_b_lt_g_eq_r (r b a : ℚ) (h1 : b < r) :
    ConvertHLS2RGB (ConvertRGB2HLS ⟨r, r, b, a⟩) = ⟨r, r, b, a⟩ := by
  have hM : GetMaxRGB ⟨r, r, b, a⟩ = r :=
    GetMaxRGB_eq_of _ _ (by simp) (by simp only []; linarith) (by simp only []; linarith)
      (by simp only []; linarith)
  have hm : GetMinRGB ⟨r, r, b, a⟩ = b :=
    GetMinRGB_eq_of _ _ (by simp) (by simp only []; linarith) (by simp only []; linarith)
      (by simp only []; linarith)
  have hd : 0 < r - b := by linarith
  have hd' : GetMaxRGB ⟨r, r, b, a⟩ - GetMinRGB ⟨r, r, b, a⟩ ≠ 0 := by
    rw [hM, hm]
    exact hd.ne'
  have hH : GetHue ⟨r, r, b, a⟩ * 360 = 60 := by
    simp only [GetHue, hM, hm, if_neg hd.ne', sub_self, zero_div, div_self hd.ne']
    split_ifs <;> first
      | (exfalso; linarith)
      | linarith
  rw [ConvertHLS2RGB_ConvertRGB2HLS_eq _ hd', hH]
  simp only [GetVal, GetSat, hM, hm]
  split_ifs <;> first
    | (exfalso; linarith)
    | (congr 1 <;> linarith)

theorem roundtrip_g_lt_b_le_r (r g b a : ℚ) (h1 : g < b) (h2 : b ≤ r) :
    ConvertHLS2RGB (ConvertRGB2HLS ⟨r, g, b, a⟩) = ⟨r, g, b, a⟩ := by
  have hM : GetMaxRGB ⟨r, g, b, a⟩ = r :=
    GetMaxRGB_eq_of _ _ (by simp) (by simp only []; linarith) (by simp only []; linarith)
      (by simp only []; linarith)
  have hm : GetMinRGB ⟨r, g, b, a⟩ = g :=
    GetMinRGB_eq_of _ _ (by simp) (by simp only []; linarith) (by simp only []; linarith)
      (by simp only []; linarith)
  have hd : 0 < r - g := by linarith
  have hd' : GetMaxRGB ⟨r, g, b, a⟩ - GetMinRGB ⟨r, g, b, a⟩ ≠ 0 := by
    rw [hM, hm]
    exact hd.ne'
  obtain ⟨Y, hYd⟩ : ∃ Y : ℚ, (r - b) / (r - g) = Y := ⟨_, rfl⟩
  have hY0 : 0 ≤ Y := hYd ▸ div_nonneg (by linarith) hd.le
  have hY1 : Y < 1 := hYd ▸ (div_lt_one hd).2 (by linarith)
  have hY : Y * (r - g) = r - b := hYd ▸ div_mul_cancel₀ _ hd.ne'
  have hH : GetHue ⟨r, g, b, a⟩ * 360 = 60 * (Y - 1) + 360 := by
    simp only [GetHue, hM, hm, if_neg hd.ne', sub_self, zero_div, div_self hd.ne', hYd]
    split_ifs <;> first
      | (exfalso; linarith)
      | linarith
  rw [ConvertHLS2RGB_ConvertRGB2HLS_eq _ hd', hH]
  simp only [GetVal, GetSat, hM, hm]
  split_ifs <;> first
    | (exfalso; linarith)
    | (congr 1 <;> linarith)

theorem roundtrip_b_lt_r_lt_g (r g b a : ℚ) (h1 : b < r) (h2 : r < g) :
    ConvertHLS2RGB (ConvertRGB2HLS ⟨r, g, b, a⟩) = ⟨r, g, b, a⟩ := by
  have hM : GetMaxRGB ⟨r, g, b, a⟩ = g :=
    GetMaxRGB_eq_of _ _ (by simp) (by simp only []; linarith) (by simp only []; linarith)
      (by simp only []; linarith)
  have hm : GetMinRGB ⟨r, g, b, a⟩ = b :=
    GetMinRGB_eq_of _ _ (by simp) (by simp only []; linarith) (by simp only []; linarith)
      (by simp only []; linarith)
  have hd : 0 < g - b := by linarith
  have hd' : GetMaxRGB ⟨r, g, b, a⟩ - GetMinRGB ⟨r, g, b, a⟩ ≠ 0 := by
    rw [hM, hm]
    exact hd.ne'
  obtain ⟨Y, hYd⟩ : ∃ Y : ℚ, (g - r) / (g - b) = Y := ⟨_, rfl⟩
  have hY0 : 0 < Y := hYd ▸ div_pos (by linarith) hd
  have hY1 : Y < 1 := hYd ▸ (div_lt_one hd).2 (by linarith)
  have hY : Y * (g - b) = g - r := hYd ▸ div_mul_cancel₀ _ hd.ne'
  have hH : GetHue ⟨r, g, b, a⟩ * 360 = 60 * (1 + Y) := by
    simp only [GetHue, hM, hm, if_neg hd.ne', sub_self, zero_div, div_self hd.ne', hYd]
    split_ifs <;> first
      | (exfalso; linarith)
      | linarith
  rw [ConvertHLS2RGB_ConvertRGB2HLS_eq _ hd', hH]
  simp only [GetVal, GetSat, hM, hm]
  split_ifs <;> first
    | (exfalso; linarith)
    | (congr 1 <;> linarith)

theorem roundtrip_r_le_b_lt_g (r g b a : ℚ) (h1 : r ≤ b) (h2 : b < g) :
    ConvertHLS2RGB (ConvertRGB2HLS ⟨r, g, b, a⟩) = ⟨r, g, b, a⟩ := by
  have hM : GetMaxRGB ⟨r, g, b, a⟩ = g :=
    GetMaxRGB_eq_of _ _ (by simp) (by simp only []; linarith) (by simp only []; linarith)
      (by simp only []; linarith)
  have hm : GetMinRGB ⟨r, g, b, a⟩ = r :=
    GetMinRGB_eq_of _ _ (by simp) (by simp only []; linarith) (by simp only []; linarith)
      (by simp only []; linarith)
  have hd : 0 < g - r := by linarith
  have hd' : GetMaxRGB ⟨r, g, b, a⟩ - GetMinRGB ⟨r, g, b, a⟩ ≠ 0 := by
    rw [hM, hm]
    exact hd.ne'
  obtain ⟨Y, hYd⟩ : ∃ Y : ℚ, (g - b) / (g - r) = Y := ⟨_, rfl⟩
  have hY0 : 0 < Y := hYd ▸ div_pos (by linarith) hd
  have hY1 : Y ≤ 1 := hYd ▸ (div_le_one hd).2 (by linarith)
  have hY : Y * (g - r) = g - b := hYd ▸ div_mul_cancel₀ _ hd.ne'
  have hH : GetHue ⟨r, g, b, a⟩ * 360 = 60 * (3 - Y) := by
    simp only [GetHue, hM, hm, if_neg hd.ne', sub_self, zero_div, div_self hd.ne', hYd]
    split_ifs <;> first
      | (exfalso; linarith)
      | linarith
  rw [ConvertHLS2RGB_ConvertRGB2HLS_eq _ hd', hH]
  simp only [GetVal, GetSat, hM, hm]
  split_ifs <;> first
    | (exfalso; linarith)
    | (congr 1 <;> linarith)

theorem roundtrip_r_lt_b_eq_g (r g a : ℚ) (h1 : r < g) :
    ConvertHLS2RGB (ConvertRGB2HLS ⟨r, g, g, a⟩) = ⟨r, g, g, a⟩ := by
  have hM : GetMaxRGB ⟨r, g, g, a⟩ = g :=
    GetMaxRGB_eq_of _ _ (by simp) (by simp only []; linarith) (by simp only []; linarith)
      (by simp only []; linarith)
  have hm : GetMinRGB ⟨r, g, g, a⟩ = r :=
    GetMinRGB_eq_of _ _ (by simp) (by simp only []; linarith) (by simp only []; linarith)
      (by simp only []; linarith)
  have hd : 0 < g - r := by linarith
  have hd' : GetMaxRGB ⟨r, g, g, a⟩ - GetMinRGB ⟨r, g, g, a⟩ ≠ 0 := by
    rw [hM, hm]
    exact hd.ne'
  have hH : GetHue ⟨r, g, g, a⟩ * 360 = 180 := by
    simp only [GetHue, hM, hm, if_neg hd.ne', sub_self, zero_div, div_self hd.ne']
    split_ifs <;> first
      | (exfalso; linarith)
      | linarith
  rw [ConvertHLS2RGB_ConvertRGB2HLS_eq _ hd', hH]
  simp only [GetVal, GetSat, hM, hm]
  split_ifs <;> first
    | (exfalso; linarith)
    | (congr 1 <;> linarith)

theorem roundtrip_r_lt_g_lt_b (r g b a : ℚ) (h1 : r < g) (h2 : g < b) :
    ConvertHLS2RGB (ConvertRGB2HLS ⟨r, g, b, a⟩) = ⟨r, g, b, a⟩ := by
  have hM : GetMaxRGB ⟨r, g, b, a⟩ = b :=
    GetMaxRGB_eq_of _ _ (by simp) (by simp only []; linarith) (by simp only []; linarith)
      (by simp only []; linarith)
  have hm : GetMinRGB ⟨r, g, b, a⟩ = r :=
    GetMinRGB_eq_of _ _ (by simp) (by simp only []; linarith) (by simp only []; linarith)
      (by simp only []; linarith)
  have hd : 0 < b - r := by linarith
  have hd' : GetMaxRGB ⟨r, g, b, a⟩ - GetMinRGB ⟨r, g, b, a⟩ ≠ 0 := by
    rw [hM, hm]
    exact hd.ne'
  obtain ⟨Y, hYd⟩ : ∃ Y : ℚ, (b - g) / (b - r) = Y := ⟨_, rfl⟩
  have hY0 : 0 < Y := hYd ▸ div_pos (by linarith) hd
  have hY1 : Y < 1 := hYd ▸ (div_lt_one hd).2 (by linarith)
  have hY : Y * (b - r) = b - g := hYd ▸ div_mul_cancel₀ _ hd.ne'
  have hH : GetHue ⟨r, g, b, a⟩ * 360 = 60 * (3 + Y) := by
    simp only [GetHue, hM, hm, if_neg hd.ne', sub_self, zero_div, div_self hd.ne', hYd]
    split_ifs <;> first
      | (exfalso; linarith)
      | linarith
  rw [ConvertHLS2RGB_ConvertRGB2HLS_eq _ hd', hH]
  simp only [GetVal, GetSat, hM, hm]
  split_ifs <;> first
    | (exfalso; linarith)
    | (congr 1 <;> linarith)

theorem roundtrip_g_le_r_lt_b (r g b a : ℚ) (h1 : g ≤ r) (h2 : r < b) :
    ConvertHLS2RGB (ConvertRGB2HLS ⟨r, g, b, a⟩) = ⟨r, g, b, a⟩ := by
  have hM : GetMaxRGB ⟨r, g, b, a⟩ = b :=
    GetMaxRGB_eq_of _ _ (by simp) (by simp only []; linarith) (by simp only []; linarith)
      (by simp only []; linarith)
  have hm : GetMinRGB ⟨r, g, b, a⟩ = g :=
    GetMinRGB_eq_of _ _ (by simp) (by simp only []; linarith) (by simp only []; linarith)
      (by simp only []; linarith)
  have hd : 0 < b - g := by linarith
  have hd' : GetMaxRGB ⟨r, g, b, a⟩ - GetMinRGB ⟨r, g, b, a⟩ ≠ 0 := by
    rw [hM, hm]
    exact hd.ne'
  obtain ⟨Y, hYd⟩ : ∃ Y : ℚ, (b - r) / (b - g) = Y := ⟨_, rfl⟩
  have hY0 : 0 < Y := hYd ▸ div_pos (by linarith) hd
  have hY1 : Y ≤ 1 := hYd ▸ (div_le_one hd).2 (by linarith)
  have hY : Y * (b - g) = b - r := hYd ▸ div_mul_cancel₀ _ hd.ne'
  have hH : GetHue ⟨r, g, b, a⟩ * 360 = 60 * (5 - Y) := by
    simp only [GetHue, hM, hm, if_neg hd.ne', sub_self, zero_div, div_self hd.ne', hYd]
    split_ifs <;> first
      | (exfalso; linarith)
      | linarith
  rw [ConvertHLS2RGB_ConvertRGB2HLS_eq _ hd', hH]
  simp only [GetVal, GetSat, hM, hm]
  split_ifs <;> first
    | (exfalso; linarith)
    | (congr 1 <;> linarith)

/-- The inverse `ConvertHLS2RGB` undoes `ConvertRGB2HLS` on every colour whose channels are
not all equal (alpha included, whatever the range of the channels). -/
theorem ConvertHLS2RGB_ConvertRGB2HLS (c : e1nColor) (hne : ¬ (c.r = c.g ∧ c.g = c.b)) :
    ConvertHLS2RGB (ConvertRGB2HLS c) = c := by
  obtain ⟨r, g, b, a⟩ := c
  simp only at hne
  rcases lt_trichotomy g r with hgr | hgr | hgr
  · rcases le_or_lt b g with hbg | hbg
    · exact roundtrip_b_le_g_lt_r r g b a hbg hgr
    · rcases le_or_lt b r with hbr | hbr
      · exact roundtrip_g_lt_b_le_r r g b a hbg hbr
      · exact roundtrip_g_le_r_lt_b r g b a hgr.le hbr
  · subst hgr
    rcases lt_trichotomy b g with hbr | hbr | hbr
    · exact roundtrip_b_lt_g_eq_r g b a hbr
    · exact absurd ⟨rfl, hbr.symm⟩ hne
    · exact roundtrip_g_le_r_lt_b g g b a le_rfl hbr
  · rcases lt_trichotomy b g with hbg | hbg | hbg
    · rcases lt_or_le b r with hbr | hbr
      · exact roundtrip_b_lt_r_lt_g r g b a hbr hgr
      · exact roundtrip_r_le_b_lt_g r g b a hbr hbg
    · subst hbg
      exact roundtrip_r_lt_b_eq_g r b a hgr
    · exact roundtrip_r_lt_g_lt_b r g b a hgr hbg

/-! ## Claims on the hue and on the round trip -/

/-- C1. Round trip: for every colour whose red, green and blue lie in `[0,1]` and
are not all equal, `ConvertRGB2HLS` followed by `ConvertHLS2RGB` gives back the
same red, green and blue, exactly.  (The range hypotheses are those of the
specification; `ConvertHLS2RGB_ConvertRGB2HLS` shows they are not needed.) -/
theorem roundtrip_RGB_HLS (c : e1nColor)
    (_hr : 0 ≤ c.r ∧ c.r ≤ 1) (_hg : 0 ≤ c.g ∧ c.g ≤ 1) (_hb : 0 ≤ c.b ∧ c.b ≤ 1)
    (hne : ¬ (c.r = c.g ∧ c.g = c.b)) :
    (ConvertHLS2RGB (ConvertRGB2HLS c)).r = c.r ∧
    (ConvertHLS2RGB (ConvertRGB2HLS c)).g = c.g ∧
    (ConvertHLS2RGB (ConvertRGB2HLS c)).b = c.b := by
  rw [ConvertHLS2RGB_ConvertRGB2HLS c hne]
  exact ⟨rfl, rfl, rfl⟩

/-- Instance of `roundtrip_RGB_HLS` at the colour (1/5, 3/7, 9/11). -/
theorem roundtrip_RGB_HLS_witness :
    (ConvertHLS2RGB (ConvertRGB2HLS ⟨1 / 5, 3 / 7, 9 / 11, 1⟩)).r = 1 / 5 ∧
    (ConvertHLS2RGB (ConvertRGB2HLS ⟨1 / 5, 3 / 7, 9 / 11, 1⟩)).g = 3 / 7 ∧
    (ConvertHLS2RGB (ConvertRGB2HLS ⟨1 / 5, 3 / 7, 9 / 11, 1⟩)).b = 9 / 11 :=
  roundtrip_RGB_HLS ⟨1 / 5, 3 / 7, 9 / 11, 1⟩ (by norm_num) (by norm_num) (by norm_num)
    (by norm_num)

/-- C10. Primary hues: red strictly greatest with green = blue gives hue 0; green
strictly greatest with red = blue gives hue 1/3; blue strictly greatest with
red = green gives hue 2/3.  The colour built from bytes (255,0,0) has hue 0,
saturation 1 and value 1/2; (0,255,0) has hue 1/3 and (0,0,255) has hue 2/3. -/
theorem primary_hues :
    (∀ c : e1nColor, c.r > c.g → c.r > c.b → c.g = c.b → GetHue c = 0) ∧
    (∀ c : e1nColor, c.g > c.r → c.g > c.b → c.r = c.b → GetHue c = 1 / 3) ∧
    (∀ c : e1nColor, c.b > c.r → c.b > c.g → c.r = c.g → GetHue c = 2 / 3) ∧
    GetHue (ofBytes 255 0 0) = 0 ∧ GetSat (ofBytes 255 0 0) = 1 ∧
    GetVal (ofBytes 255 0 0) = 1 / 2 ∧
    GetHue (ofBytes 0 255 0) = 1 / 3 ∧
    GetHue (ofBytes 0 0 255) = 2 / 3 := by
  refine ⟨?_, ?_, ?_, ?_, ?_, ?_, ?_, ?_⟩
  · rintro ⟨r, g, b, a⟩ h1 h2 h3
    simp only at h1 h2 h3
    subst h3
    have hM : GetMaxRGB ⟨r, g, g, a⟩ = r := by
      unfold GetMaxRGB
      rw [if_pos ⟨h1.le, h1.le⟩]
    have hm : GetMinRGB ⟨r, g, g, a⟩ = g := by
      unfold GetMinRGB
      rw [if_neg (fun h => absurd h.1 (not_le.2 h1)), if_pos ⟨h1.le, le_refl _⟩]
    simp [GetHue, hM, hm]
  · rintro ⟨r, g, b, a⟩ h1 h2 h3
    simp only at h1 h2 h3
    subst h3
    have hM : GetMaxRGB ⟨r, g, r, a⟩ = g := by
      unfold GetMaxRGB
      rw [if_neg (fun h => absurd h.2 (not_le.2 h1)), if_pos ⟨h1.le, h1.le⟩]
    have hm : GetMinRGB ⟨r, g, r, a⟩ = r := by
      unfold GetMinRGB
      rw [if_pos ⟨le_refl _, h1.le⟩]
    have hd : g - r ≠ 0 := by
      intro h
      linarith
    have hrg : ¬ r = g := by
      intro h
      linarith
    simp only [GetHue, hM, hm, if_neg hd, if_neg hrg, if_true, sub_self, zero_div,
      div_self hd]
    norm_num
  · rintro ⟨r, g, b, a⟩ h1 h2 h3
    simp only at h1 h2 h3
    subst h3
    have hM : GetMaxRGB ⟨r, r, b, a⟩ = b := by
      unfold GetMaxRGB
      rw [if_neg (fun h => absurd h.1 (not_le.2 h1)),
        if_neg (fun h => absurd h.2 (not_le.2 h1))]
    have hm : GetMinRGB ⟨r, r, b, a⟩ = r := by
      unfold GetMinRGB
      rw [if_pos ⟨h1.le, le_refl _⟩]
    have hd : b - r ≠ 0 := by
      intro h
      linarith
    have hrb : ¬ r = b := by
      intro h
      linarith
    simp only [GetHue, hM, hm, if_neg hd, if_neg hrb, sub_self, zero_div,
      div_self hd]
    norm_num
  all_goals
    simp only [ofBytes, show ((255 : Byte).val : ℚ) = 255 from rfl,
      show ((0 : Byte).val : ℚ) = 0 from Nat.cast_zero]
    norm_num [GetHue, GetSat, GetVal, GetMaxRGB, GetMinRGB]

/-- Instances of the three general parts of `primary_hues`. -/
theorem primary_hues_witness :
    GetHue ⟨3 / 4, 1 / 4, 1 / 4, 1⟩ = 0 ∧
    GetHue ⟨1 / 4, 3 / 4, 1 / 4, 1⟩ = 1 / 3 ∧
    GetHue ⟨1 / 4, 1 / 4, 3 / 4, 1⟩ = 2 / 3 :=
  ⟨primary_hues.1 ⟨3 / 4, 1 / 4, 1 / 4, 1⟩ (by norm_num) (by norm_num) rfl,
   primary_hues.2.1 ⟨1 / 4, 3 / 4, 1 / 4, 1⟩ (by norm_num) (by norm_num) rfl,
   primary_hues.2.2.1 ⟨1 / 4, 1 / 4, 3 / 4, 1⟩ (by norm_num) (by norm_num) rfl⟩

/-! ## Gray, bytes, operators, normalisation -/

/-- C11. Gray derivation: a colour with red = green = blue = x has saturation 0,
hue 0 (delta-zero branch) and value x; the colour built from bytes (128,128,128)
has value 128/255. -/
theorem gray_derivation :
    (∀ x a : ℚ, GetSat ⟨x, x, x, a⟩ = 0 ∧ GetHue ⟨x, x, x, a⟩ = 0 ∧
      GetVal ⟨x, x, x, a⟩ = x) ∧
    GetSat (ofBytes 128 128 128) = 0 ∧ GetHue (ofBytes 128 128 128) = 0 ∧
    GetVal (ofBytes 128 128 128) = 128 / 255 := by
  have key : ∀ x a : ℚ, GetSat ⟨x, x, x, a⟩ = 0 ∧ GetHue ⟨x, x, x, a⟩ = 0 ∧
      GetVal ⟨x, x, x, a⟩ = x := by
    intro x a
    have hM : GetMaxRGB ⟨x, x, x, a⟩ = x := by simp [GetMaxRGB]
    have hm : GetMinRGB ⟨x, x, x, a⟩ = x := by simp [GetMinRGB]
    refine ⟨?_, ?_, ?_⟩
    · simp [GetSat, hM, hm]
    · simp [GetHue, hM, hm]
    · simp [GetVal, hM, hm]
  refine ⟨key, ?_⟩
  have hb : ofBytes 128 128 128 = ⟨128 / 255, 128 / 255, 128 / 255, 1⟩ := by
    simp only [ofBytes, show ((128 : Byte).val : ℚ) = 128 from rfl]
  rw [hb]
  exact key (128 / 255) 1

theorem round_natCast (n : ℕ) : round (n : ℚ) = (n : ℤ) := by
  unfold round
  rw [if_pos (Nat.cast_nonneg n)]
  rw [Int.floor_eq_iff]
  constructor
  · push_cast
    linarith
  · push_cast
    linarith

theorem toByte_val (b : Byte) : toByte (b.val : ℤ) = b := by
  apply Fin.ext
  have h := b.isLt
  simp only [toByte]
  omega

theorem toByte_round_byte (b : Byte) : toByte (round ((b.val : ℚ) / 255 * 255)) = b := by
  have h255 : (255 : ℚ) ≠ 0 := by norm_num
  rw [div_mul_cancel₀ _ h255, round_natCast, toByte_val]

/-- C12. Byte round trip: for every byte and each of the four channels, storing
the byte with the byte setter and reading it back with the byte getter returns the
byte; a colour built from a 3-byte pixel exports the same three bytes through
`GetVec3b`. -/
theorem byte_roundtrip :
    (∀ (c : e1nColor) (b : Byte),
      GetRedByte (SetRed_uchar c b) = b ∧ GetGreenByte (SetGreen_uchar c b) = b ∧
      GetBlueByte (SetBlue_uchar c b) = b ∧ GetAlphaByte (SetAlpha_uchar c b) = b) ∧
    (∀ v : Vec3b, GetVec3b (ofVec3b v) = v) := by
  constructor
  · intro c b
    exact ⟨toByte_round_byte b, toByte_round_byte b, toByte_round_byte b,
      toByte_round_byte b⟩
  · rintro ⟨v0, v1, v2⟩
    simp only [GetVec3b, ofVec3b, toByte_round_byte]

/-- C13. Equality excludes alpha: `c1 == c2` holds exactly when red, green and
blue are pairwise equal, whatever the alpha fields; `Color(1,0,0,1.0) ==
Color(1,0,0,0.0)` is true. -/
theorem equality_excludes_alpha :
    (∀ c1 c2 : e1nColor,
      operator_eq c1 c2 = true ↔ (c1.r = c2.r ∧ c1.g = c2.g ∧ c1.b = c2.b)) ∧
    operator_eq (ofFloats 1 0 0 1) (ofFloats 1 0 0 0) = true := by
  have key : ∀ c1 c2 : e1nColor,
      operator_eq c1 c2 = true ↔ (c1.r = c2.r ∧ c1.g = c2.g ∧ c1.b = c2.b) := by
    intro c1 c2
    simp only [operator_eq, Bool.and_eq_true, decide_eq_true_eq, and_assoc]
  refine ⟨key, ?_⟩
  rw [key]
  exact ⟨rfl, rfl, rfl⟩

theorem checkedDiv_of_ne (x y : ℚ) (hy : y ≠ 0) : checkedDiv x y = some (x / y) := by
  simp only [checkedDiv, if_neg hy]

theorem complements_checked_eq (c : e1nColor) :
    complements_checked c =
      some (if GetMaxRGB c - GetMinRGB c = 0 then (0, 0, 0)
        else ((GetMaxRGB c - c.r) / (GetMaxRGB c - GetMinRGB c),
              (GetMaxRGB c - c.g) / (GetMaxRGB c - GetMinRGB c),
              (GetMaxRGB c - c.b) / (GetMaxRGB c - GetMinRGB c))) := by
  unfold complements_checked
  by_cases hd : GetMaxRGB c - GetMinRGB c = 0
  · simp only [hd, if_true]
  · simp only [if_neg hd, checkedDiv_of_ne _ _ hd]
    rfl

/-- C15. Guarded division in hue derivation: with every division checked, `GetHue`
and `ConvertRGB2HLS` never fail, for any colour, and return what the unchecked
bodies return; the complements are divided by `delta` only when `delta ≠ 0`, and
when `delta = 0` all three are 0. -/
theorem hue_division_guarded (c : e1nColor) :
    GetHue_checked c = some (GetHue c) ∧
    ConvertRGB2HLS_checked c = some (ConvertRGB2HLS c) ∧
    (GetMaxRGB c - GetMinRGB c = 0 → complements_checked c = some (0, 0, 0)) ∧
    (GetMaxRGB c - GetMinRGB c ≠ 0 →
      complements_checked c =
        some ((GetMaxRGB c - c.r) / (GetMaxRGB c - GetMinRGB c),
              (GetMaxRGB c - c.g) / (GetMaxRGB c - GetMinRGB c),
              (GetMaxRGB c - c.b) / (GetMaxRGB c - GetMinRGB c))) := by
  have h360 : (360 : ℚ) ≠ 0 := by norm_num
  have h2 : (2 : ℚ) ≠ 0 := by norm_num
  refine ⟨?_, ?_, ?_, ?_⟩
  · unfold GetHue_checked GetHue
    rw [complements_checked_eq]
    by_cases hd : GetMaxRGB c - GetMinRGB c = 0
    · simp only [hd, if_true, checkedDiv_of_ne _ _ h360, Option.bind_eq_bind,
        Option.some_bind]
    · simp only [if_neg hd, checkedDiv_of_ne _ _ h360, Option.bind_eq_bind,
        Option.some_bind]
  · unfold ConvertRGB2HLS_checked ConvertRGB2HLS
    rw [complements_checked_eq]
    by_cases hd : GetMaxRGB c - GetMinRGB c = 0
    · simp only [hd, if_true, checkedDiv_of_ne _ _ h360, checkedDiv_of_ne _ _ h2,
        Option.bind_eq_bind, Option.some_bind, Option.pure_def]
    · simp only [if_neg hd, checkedDiv_of_ne _ _ h360, checkedDiv_of_ne _ _ h2,
        Option.bind_eq_bind, Option.some_bind, Option.pure_def]
  · intro hd
    rw [complements_checked_eq, if_pos hd]
  · intro hd
    rw [complements_checked_eq, if_neg hd]

/-- Instances of the two conditional parts of `hue_division_guarded`: a gray and a
non-gray colour. -/
theorem hue_division_guarded_witness :
    complements_checked ⟨1 / 2, 1 / 2, 1 / 2, 1⟩ = some (0, 0, 0) ∧
    GetHue_checked ⟨1 / 2, 1 / 2, 1 / 2, 1⟩ = some (GetHue ⟨1 / 2, 1 / 2, 1 / 2, 1⟩) ∧
    complements_checked ⟨1, 1 / 2, 0, 1⟩ =
      some ((GetMaxRGB ⟨1, 1 / 2, 0, 1⟩ - 1) /
              (GetMaxRGB ⟨1, 1 / 2, 0, 1⟩ - GetMinRGB ⟨1, 1 / 2, 0, 1⟩),
            (GetMaxRGB ⟨1, 1 / 2, 0, 1⟩ - 1 / 2) /
              (GetMaxRGB ⟨1, 1 / 2, 0, 1⟩ - GetMinRGB ⟨1, 1 / 2, 0, 1⟩),
            (GetMaxRGB ⟨1, 1 / 2, 0, 1⟩ - 0) /
              (GetMaxRGB ⟨1, 1 / 2, 0, 1⟩ - GetMinRGB ⟨1, 1 / 2, 0, 1⟩)) :=
  ⟨(hue_division_guarded ⟨1 / 2, 1 / 2, 1 / 2, 1⟩).2.2.1 (by norm_num [GetMaxRGB, GetMinRGB]),
   (hue_division_guarded ⟨1 / 2, 1 / 2, 1 / 2, 1⟩).1,
   (hue_division_guarded ⟨1, 1 / 2, 0, 1⟩).2.2.2 (by norm_num [GetMaxRGB, GetMinRGB])⟩

/-- C16. Unguarded division in normalisation: with checked division `NormalizeRGB`
fails exactly when `GetMaxRGB` is 0, as for black `(0,0,0)`; otherwise it returns
what the unchecked body returns. -/
theorem normalize_division_unguarded :
    (∀ c : e1nColor, NormalizeRGB_checked c = none ↔ GetMaxRGB c = 0) ∧
    (∀ c : e1nColor, GetMaxRGB c ≠ 0 → NormalizeRGB_checked c = some (NormalizeRGB c)) ∧
    NormalizeRGB_checked ⟨0, 0, 0, 1⟩ = none := by
  have key : ∀ c : e1nColor, NormalizeRGB_checked c = none ↔ GetMaxRGB c = 0 := by
    intro c
    unfold NormalizeRGB_checked
    by_cases h : GetMaxRGB c = 0
    · simp [checkedDiv, h]
    · simp [checkedDiv, h]
  refine ⟨key, ?_, ?_⟩
  · intro c h
    unfold NormalizeRGB_checked NormalizeRGB
    simp only [checkedDiv_of_ne _ _ h, Option.bind_eq_bind, Option.some_bind,
      Option.pure_def]
  · rw [key]
    simp [GetMaxRGB]

/-- Instances of `normalize_division_unguarded`: black fails, (1/4, 1/2, 1/8) does not. -/
theorem normalize_division_unguarded_witness :
    NormalizeRGB_checked ⟨0, 0, 0, 1⟩ = none ∧
    NormalizeRGB_checked ⟨1 / 4, 1 / 2, 1 / 8, 1⟩ =
      some (NormalizeRGB ⟨1 / 4, 1 / 2, 1 / 8, 1⟩) :=
  ⟨normalize_division_unguarded.2.2,
   normalize_division_unguarded.2.1 ⟨1 / 4, 1 / 2, 1 / 8, 1⟩ (by norm_num [GetMaxRGB])⟩

/-- C17. Assignment at `d = (0,0,0,1)`, `s = (1,0,0,0)`: red, green and blue of
`d` become those of `s`, while alpha of `d` stays 1 and differs from the alpha 0
of `s`. -/
theorem assign_leaves_alpha :
    (operator_assign (ofFloats 0 0 0 1) (ofFloats 1 0 0 0)).r = (ofFloats 1 0 0 0).r ∧
    (operator_assign (ofFloats 0 0 0 1) (ofFloats 1 0 0 0)).g = (ofFloats 1 0 0 0).g ∧
    (operator_assign (ofFloats 0 0 0 1) (ofFloats 1 0 0 0)).b = (ofFloats 1 0 0 0).b ∧
    (operator_assign (ofFloats 0 0 0 1) (ofFloats 1 0 0 0)).a = 1 ∧
    (operator_assign (ofFloats 0 0 0 1) (ofFloats 1 0 0 0)).a ≠ (ofFloats 1 0 0 0).a := by
  refine ⟨rfl, rfl, rfl, rfl, ?_⟩
  simp [operator_assign, ofFloats]

/-- What `operator =` does on every pair of colours: it copies red, green and blue
and keeps the alpha of the target. -/
theorem operator_assign_fields (d s : e1nColor) :
    (operator_assign d s).r = s.r ∧ (operator_assign d s).g = s.g ∧
    (operator_assign d s).b = s.b ∧ (operator_assign d s).a = d.a :=
  ⟨rfl, rfl, rfl, rfl⟩

/-- C18. Unimplemented setters: `SetHue`, `SetSat` and `SetVal` leave red, green,
blue and alpha unchanged for every colour and every argument, and so leave
`GetHue`, `GetSat` and `GetVal` unchanged. -/
theorem setters_are_noops (c : e1nColor) (x : ℚ) :
    (SetHue c x = c ∧ SetSat c x = c ∧ SetVal c x = c) ∧
    ((SetHue c x).r = c.r ∧ (SetHue c x).g = c.g ∧ (SetHue c x).b = c.b ∧
      (SetHue c x).a = c.a) ∧
    ((SetSat c x).r = c.r ∧ (SetSat c x).g = c.g ∧ (SetSat c x).b = c.b ∧
      (SetSat c x).a = c.a) ∧
    ((SetVal c x).r = c.r ∧ (SetVal c x).g = c.g ∧ (SetVal c x).b = c.b ∧
      (SetVal c x).a = c.a) ∧
    (GetHue (SetHue c x) = GetHue c ∧ GetSat (SetHue c x) = GetSat c ∧
      GetVal (SetHue c x) = GetVal c) ∧
    (GetHue (SetSat c x) = GetHue c ∧ GetSat (SetSat c x) = GetSat c ∧
      GetVal (SetSat c x) = GetVal c) ∧
    (GetHue (SetVal c x) = GetHue c ∧ GetSat (SetVal c x) = GetSat c ∧
      GetVal (SetVal c x) = GetVal c) :=
  ⟨⟨rfl, rfl, rfl⟩, ⟨rfl, rfl, rfl, rfl⟩, ⟨rfl, rfl, rfl, rfl⟩, ⟨rfl, rfl, rfl, rfl⟩,
   ⟨rfl, rfl, rfl⟩, ⟨rfl, rfl, rfl⟩, ⟨rfl, rfl, rfl⟩⟩

/-! ## Reverse round trip -/

theorem GetHue_of_delta_zero (c : e1nColor) (hd : GetMaxRGB c - GetMinRGB c = 0) :
    GetHue c = 0 := by
  have h1 := (le_GetMaxRGB c).1
  have h2 := (GetMinRGB_le c).1
  have hr : c.r = GetMaxRGB c := by linarith
  unfold GetHue
  simp only [hd, if_true, if_pos hr]
  norm_num

theorem GetMaxRGB_bounds (c : e1nColor) (lo hi : ℚ)
    (hr : lo ≤ c.r ∧ c.r ≤ hi) (hg : lo ≤ c.g ∧ c.g ≤ hi) (hb : lo ≤ c.b ∧ c.b ≤ hi) :
    lo ≤ GetMaxRGB c ∧ GetMaxRGB c ≤ hi := by
  rcases GetMaxRGB_mem c with h | h | h <;> rw [h] <;> assumption

theorem GetMinRGB_bounds (c : e1nColor) (lo hi : ℚ)
    (hr : lo ≤ c.r ∧ c.r ≤ hi) (hg : lo ≤ c.g ∧ c.g ≤ hi) (hb : lo ≤ c.b ∧ c.b ≤ hi) :
    lo ≤ GetMinRGB c ∧ GetMinRGB c ≤ hi := by
  rcases GetMinRGB_mem c with h | h | h <;> rw [h] <;> assumption

/-! ## Normalisation and hue -/

theorem roundNE_bounds (t : ℚ) : (roundNE t : ℚ) - 1 / 2 ≤ t ∧ t ≤ (roundNE t : ℚ) + 1 / 2 := by
  have h1 := Int.floor_le t
  have h2 := Int.lt_floor_add_one t
  unfold roundNE
  simp only []
  split_ifs <;> push_cast <;> constructor <;> linarith

theorem roundNE_mono {t u : ℚ} (h : t ≤ u) : roundNE t ≤ roundNE u := by
  rcases eq_or_lt_of_le h with h | h
  · rw [h]
  by_contra hc
  push_neg at hc
  have h3 : (roundNE u : ℚ) + 1 ≤ roundNE t := by exact_mod_cast hc
  have h4 := (roundNE_bounds t).1
  have h5 := (roundNE_bounds u).2
  linarith

theorem roundNE_eq_of_near (t : ℚ) (n : ℤ) (h : |t - n| < 1 / 2) : roundNE t = n := by
  obtain ⟨h1, h2⟩ := abs_lt.1 h
  obtain ⟨h3, h4⟩ := roundNE_bounds t
  have a1 : (roundNE t : ℚ) < n + 1 := by linarith
  have a2 : (n : ℚ) < roundNE t + 1 := by linarith
  have b1 : roundNE t < n + 1 := by exact_mod_cast a1
  have b2 : n < roundNE t + 1 := by exact_mod_cast a2
  omega

theorem roundNE_intCast (n : ℤ) : roundNE (n : ℚ) = n :=
  roundNE_eq_of_near _ n (by simp)

theorem log2_eq (a : ℚ) (e : ℤ) (h1 : (2 : ℚ) ^ e ≤ a) (h2 : a < (2 : ℚ) ^ (e + 1)) :
    Int.log 2 a = e := by
  have ha : 0 < a := lt_of_lt_of_le (by positivity) h1
  have h1' : ((2 : ℕ) : ℚ) ^ e ≤ a := by exact_mod_cast h1
  have h2' : a < ((2 : ℕ) : ℚ) ^ (e + 1) := by exact_mod_cast h2
  have c1 := (Int.zpow_le_iff_le_log (by norm_num : 1 < 2) ha).1 h1'
  have c2 := (Int.lt_zpow_iff_log_lt (by norm_num : 1 < 2) ha).1 h2'
  omega

/-- Evaluation of one rounding: `a` lies in the binade of exponent `e` and `n` is
the nearest multiple of the quantum. -/
theorem rndAbs_eq (p : ℕ) (emin : ℤ) (a : ℚ) (e n : ℤ)
    (h1 : (2 : ℚ) ^ e ≤ a) (h2 : a < (2 : ℚ) ^ (e + 1)) (hemin : emin ≤ e)
    (hn : |a / (2 : ℚ) ^ (e - (p : ℤ) + 1) - n| < 1 / 2) :
    rndAbs p emin a = n * (2 : ℚ) ^ (e - (p : ℤ) + 1) := by
  have ha : 0 < a := lt_of_lt_of_le (by positivity) h1
  unfold rndAbs
  rw [if_neg ha.ne']
  simp only [log2_eq a e h1 h2, max_eq_left hemin]
  rw [roundNE_eq_of_near _ n hn]

theorem roundNE_nonneg {t : ℚ} (h : 0 ≤ t) : 0 ≤ roundNE t := by
  have := roundNE_mono h
  rwa [show roundNE (0 : ℚ) = 0 from by exact_mod_cast roundNE_intCast 0] at this

theorem rndAbs_zero (p : ℕ) (emin : ℤ) : rndAbs p emin 0 = 0 := by
  simp [rndAbs]

theorem rndAbs_nonneg (p : ℕ) (emin : ℤ) {a : ℚ} (ha : 0 ≤ a) : 0 ≤ rndAbs p emin a := by
  unfold rndAbs
  split_ifs with h0
  · exact le_refl _
  · simp only []
    have hq : (0 : ℚ) < (2 : ℚ) ^ (max (Int.log 2 a) emin - (p : ℤ) + 1) := by positivity
    have ht : 0 ≤ a / (2 : ℚ) ^ (max (Int.log 2 a) emin - (p : ℤ) + 1) := div_nonneg ha hq.le
    have hr : (0 : ℚ) ≤ (roundNE (a / (2 : ℚ) ^ (max (Int.log 2 a) emin - (p : ℤ) + 1)) : ℚ) := by
      exact_mod_cast roundNE_nonneg ht
    exact mul_nonneg hr hq.le

theorem lt_two_zpow_expo (emin : ℤ) {a : ℚ} :
    a < (2 : ℚ) ^ (max (Int.log 2 a) emin + 1) := by
  have h := Int.lt_zpow_succ_log_self (by norm_num : 1 < 2) a
  have h' : a < (2 : ℚ) ^ (Int.log 2 a + 1) := by exact_mod_cast h
  refine lt_of_lt_of_le h' ?_
  exact zpow_le_zpow_right₀ (by norm_num) (by have := le_max_left (Int.log 2 a) emin; omega)

theorem two_zpow_split (p : ℕ) (e : ℤ) :
    ((2 : ℤ) ^ p : ℤ) * (2 : ℚ) ^ (e - (p : ℤ) + 1) = (2 : ℚ) ^ (e + 1) := by
  have h2 : (2 : ℚ) ≠ 0 := by norm_num
  push_cast
  rw [← zpow_natCast (2 : ℚ) p, ← zpow_add₀ h2]
  congr 1
  ring

/-- A rounded positive magnitude does not leave its binade upwards. -/
theorem rndAbs_le_two_zpow (p : ℕ) (emin : ℤ) {a : ℚ} (ha : 0 < a) :
    rndAbs p emin a ≤ (2 : ℚ) ^ (max (Int.log 2 a) emin + 1) := by
  unfold rndAbs
  rw [if_neg ha.ne']
  simp only []
  set e := max (Int.log 2 a) emin with he
  have hq : (0 : ℚ) < (2 : ℚ) ^ (e - (p : ℤ) + 1) := by positivity
  have hlt : a < (2 : ℚ) ^ (e + 1) := lt_two_zpow_expo emin
  have ht : a / (2 : ℚ) ^ (e - (p : ℤ) + 1) ≤ (((2 : ℤ) ^ p : ℤ) : ℚ) := by
    rw [div_le_iff₀ hq, two_zpow_split]
    exact hlt.le
  have hr := roundNE_mono ht
  rw [roundNE_intCast] at hr
  have hr' : (roundNE (a / (2 : ℚ) ^ (e - (p : ℤ) + 1)) : ℚ) ≤ (((2 : ℤ) ^ p : ℤ) : ℚ) := by
    exact_mod_cast hr
  calc (roundNE (a / (2 : ℚ) ^ (e - (p : ℤ) + 1)) : ℚ) * (2 : ℚ) ^ (e - (p : ℤ) + 1)
      ≤ (((2 : ℤ) ^ p : ℤ) : ℚ) * (2 : ℚ) ^ (e - (p : ℤ) + 1) :=
        mul_le_mul_of_nonneg_right hr' hq.le
    _ = (2 : ℚ) ^ (e + 1) := two_zpow_split p e

theorem two_zpow_split_pred (p : ℕ) (hp : 1 ≤ p) (e : ℤ) :
    ((2 : ℤ) ^ (p - 1) : ℤ) * (2 : ℚ) ^ (e - (p : ℤ) + 1) = (2 : ℚ) ^ e := by
  have h2 : (2 : ℚ) ≠ 0 := by norm_num
  push_cast
  rw [← zpow_natCast (2 : ℚ) (p - 1), ← zpow_add₀ h2]
  congr 1
  have : ((p - 1 : ℕ) : ℤ) = (p : ℤ) - 1 := by omega
  rw [this]
  ring

/-- A rounded normal magnitude does not leave its binade downwards. -/
theorem two_zpow_le_rndAbs (p : ℕ) (hp : 1 ≤ p) (emin : ℤ) {a : ℚ} (ha : 0 < a)
    (hn : emin ≤ Int.log 2 a) : (2 : ℚ) ^ (Int.log 2 a) ≤ rndAbs p emin a := by
  unfold rndAbs
  rw [if_neg ha.ne']
  simp only [max_eq_left hn]
  set e := Int.log 2 a with he
  have hq : (0 : ℚ) < (2 : ℚ) ^ (e - (p : ℤ) + 1) := by positivity
  have hle : (2 : ℚ) ^ e ≤ a := by
    have := Int.zpow_log_le_self (by norm_num : 1 < 2) ha
    exact_mod_cast this
  have ht : (((2 : ℤ) ^ (p - 1) : ℤ) : ℚ) ≤ a / (2 : ℚ) ^ (e - (p : ℤ) + 1) := by
    rw [le_div_iff₀ hq, two_zpow_split_pred p hp]
    exact hle
  have hr := roundNE_mono ht
  rw [roundNE_intCast] at hr
  have hr' : (((2 : ℤ) ^ (p - 1) : ℤ) : ℚ) ≤ (roundNE (a / (2 : ℚ) ^ (e - (p : ℤ) + 1)) : ℚ) := by
    exact_mod_cast hr
  calc (2 : ℚ) ^ e = (((2 : ℤ) ^ (p - 1) : ℤ) : ℚ) * (2 : ℚ) ^ (e - (p : ℤ) + 1) :=
        (two_zpow_split_pred p hp e).symm
    _ ≤ (roundNE (a / (2 : ℚ) ^ (e - (p : ℤ) + 1)) : ℚ) * (2 : ℚ) ^ (e - (p : ℤ) + 1) :=
        mul_le_mul_of_nonneg_right hr' hq.le

theorem rndAbs_mono (p : ℕ) (hp : 1 ≤ p) (emin : ℤ) {a b : ℚ} (ha : 0 ≤ a) (hab : a ≤ b) :
    rndAbs p emin a ≤ rndAbs p emin b := by
  rcases eq_or_lt_of_le ha with h0 | h0
  · rw [← h0, rndAbs_zero]
    exact rndAbs_nonneg p emin (le_trans ha hab)
  have hb : 0 < b := lt_of_lt_of_le h0 hab
  have hlog : Int.log 2 a ≤ Int.log 2 b := Int.log_mono_right h0 hab
  rcases eq_or_lt_of_le (max_le_max hlog (le_refl emin)) with he | he
  · unfold rndAbs
    rw [if_neg h0.ne', if_neg hb.ne']
    simp only [he]
    have hq : (0 : ℚ) < (2 : ℚ) ^ (max (Int.log 2 b) emin - (p : ℤ) + 1) := by positivity
    have ht : a / (2 : ℚ) ^ (max (Int.log 2 b) emin - (p : ℤ) + 1) ≤
        b / (2 : ℚ) ^ (max (Int.log 2 b) emin - (p : ℤ) + 1) :=
      div_le_div_of_nonneg_right hab hq.le
    have hr : (roundNE (a / (2 : ℚ) ^ (max (Int.log 2 b) emin - (p : ℤ) + 1)) : ℚ) ≤
        (roundNE (b / (2 : ℚ) ^ (max (Int.log 2 b) emin - (p : ℤ) + 1)) : ℚ) := by
      exact_mod_cast roundNE_mono ht
    exact mul_le_mul_of_nonneg_right hr hq.le
  · have hnb : emin ≤ Int.log 2 b := by
      by_contra hc
      push_neg at hc
      rw [max_eq_right hc.le] at he
      have := le_max_right (Int.log 2 a) emin
      omega
    have hbmax : max (Int.log 2 b) emin = Int.log 2 b := max_eq_left hnb
    rw [hbmax] at he
    calc rndAbs p emin a ≤ (2 : ℚ) ^ (max (Int.log 2 a) emin + 1) := rndAbs_le_two_zpow p emin h0
      _ ≤ (2 : ℚ) ^ (Int.log 2 b) := zpow_le_zpow_right₀ (by norm_num) (by omega)
      _ ≤ rndAbs p emin b := two_zpow_le_rndAbs p hp emin hb hnb

theorem rnd_mono (p : ℕ) (hp : 1 ≤ p) (emin : ℤ) {x y : ℚ} (h : x ≤ y) :
    rnd p emin x ≤ rnd p emin y := by
  unfold rnd
  split_ifs with hx hy hy
  · have := rndAbs_mono p hp emin (by linarith : (0 : ℚ) ≤ -y) (by linarith : -y ≤ -x)
    linarith
  · have h1 := rndAbs_nonneg p emin (by linarith : (0 : ℚ) ≤ -x)
    have h2 := rndAbs_nonneg p emin (not_lt.1 hy)
    linarith
  · linarith
  · exact rndAbs_mono p hp emin (not_lt.1 hx) h

theorem rndAbs_natCast (p : ℕ) (hp : 1 ≤ p) (emin : ℤ) (hemin : emin ≤ 0) (n : ℕ)
    (hn : n < 2 ^ p) : rndAbs p emin (n : ℚ) = n := by
  rcases Nat.eq_zero_or_pos n with h0 | h0
  · subst h0
    simp [rndAbs]
  have hne : (n : ℚ) ≠ 0 := by exact_mod_cast h0.ne'
  unfold rndAbs
  rw [if_neg hne]
  simp only []
  have hlog : Int.log 2 (n : ℚ) = (Nat.log 2 n : ℤ) := Int.log_natCast 2 n
  have hlt : Nat.log 2 n < p := Nat.log_lt_of_lt_pow h0.ne' hn
  obtain ⟨j, hj⟩ : ∃ j : ℕ, max (Int.log 2 (n : ℚ)) emin - (p : ℤ) + 1 = -(j : ℤ) := by
    refine ⟨(p - 1 - max (Int.log 2 (n : ℚ)) emin).toNat, ?_⟩
    have hm : max (Int.log 2 (n : ℚ)) emin ≤ (p : ℤ) - 1 := by
      apply max_le
      · rw [hlog]
        omega
      · omega
    omega
  rw [hj, zpow_neg, zpow_natCast, div_inv_eq_mul]
  have hc : (n : ℚ) * 2 ^ j = (((n * 2 ^ j : ℕ) : ℤ) : ℚ) := by push_cast; ring
  rw [hc, roundNE_intCast]
  have h2 : (2 : ℚ) ^ j ≠ 0 := by positivity
  push_cast
  field_simp

theorem rnd_natCast (p : ℕ) (hp : 1 ≤ p) (emin : ℤ) (hemin : emin ≤ 0) (n : ℕ)
    (hn : n < 2 ^ p) : rnd p emin (n : ℚ) = n := by
  unfold rnd
  rw [if_neg (by exact_mod_cast (Nat.zero_le n).not_lt)]
  exact rndAbs_natCast p hp emin hemin n hn

theorem rnd32_mono {x y : ℚ} (h : x ≤ y) : rnd32 x ≤ rnd32 y := rnd_mono 24 (by norm_num) _ h
theorem rnd64_mono {x y : ℚ} (h : x ≤ y) : rnd64 x ≤ rnd64 y := rnd_mono 53 (by norm_num) _ h

theorem rnd32_natCast (n : ℕ) (hn : n < 2 ^ 24) : rnd32 (n : ℚ) = n :=
  rnd_natCast 24 (by norm_num) _ (by norm_num) n hn

theorem rnd64_natCast (n : ℕ) (hn : n < 2 ^ 53) : rnd64 (n : ℚ) = n :=
  rnd_natCast 53 (by norm_num) _ (by norm_num) n hn

theorem rnd_eval_pos (p : ℕ) (emin : ℤ) (x y : ℚ) (e n : ℤ)
    (h1 : (2 : ℚ) ^ e ≤ x) (h2 : x < (2 : ℚ) ^ (e + 1)) (hemin : emin ≤ e)
    (hn : |x / (2 : ℚ) ^ (e - (p : ℤ) + 1) - n| < 1 / 2)
    (hy : n * (2 : ℚ) ^ (e - (p : ℤ) + 1) = y) : rnd p emin x = y := by
  have hx : 0 < x := lt_of_lt_of_le (by positivity) h1
  unfold rnd
  rw [if_neg (not_lt.2 hx.le), rndAbs_eq p emin x e n h1 h2 hemin hn, hy]

theorem rnd_eval_neg (p : ℕ) (emin : ℤ) (x y : ℚ) (e n : ℤ)
    (h1 : (2 : ℚ) ^ e ≤ -x) (h2 : -x < (2 : ℚ) ^ (e + 1)) (hemin : emin ≤ e)
    (hn : |-x / (2 : ℚ) ^ (e - (p : ℤ) + 1) - n| < 1 / 2)
    (hy : -(n * (2 : ℚ) ^ (e - (p : ℤ) + 1)) = y) : rnd p emin x = y := by
  have hx : 0 < -x := lt_of_lt_of_le (by positivity) h1
  unfold rnd
  rw [if_pos (by linarith), rndAbs_eq p emin (-x) e n h1 h2 hemin hn, hy]

theorem rnd32_eval_pos (x y : ℚ) (e n : ℤ)
    (h1 : (2 : ℚ) ^ e ≤ x) (h2 : x < (2 : ℚ) ^ (e + 1)) (hemin : -126 ≤ e)
    (hn : |x / (2 : ℚ) ^ (e - 23) - n| < 1 / 2)
    (hy : n * (2 : ℚ) ^ (e - 23) = y) : rnd32 x = y :=
  rnd_eval_pos 24 (-126) x y e n h1 h2 hemin
    (by rw [show e - ((24 : ℕ) : ℤ) + 1 = e - 23 by push_cast; ring]; exact hn)
    (by rw [show e - ((24 : ℕ) : ℤ) + 1 = e - 23 by push_cast; ring]; exact hy)

theorem rnd32_eval_neg (x y : ℚ) (e n : ℤ)
    (h1 : (2 : ℚ) ^ e ≤ -x) (h2 : -x < (2 : ℚ) ^ (e + 1)) (hemin : -126 ≤ e)
    (hn : |-x / (2 : ℚ) ^ (e - 23) - n| < 1 / 2)
    (hy : -(n * (2 : ℚ) ^ (e - 23)) = y) : rnd32 x = y :=
  rnd_eval_neg 24 (-126) x y e n h1 h2 hemin
    (by rw [show e - ((24 : ℕ) : ℤ) + 1 = e - 23 by push_cast; ring]; exact hn)
    (by rw [show e - ((24 : ℕ) : ℤ) + 1 = e - 23 by push_cast; ring]; exact hy)

theorem rnd64_eval_neg (x y : ℚ) (e n : ℤ)
    (h1 : (2 : ℚ) ^ e ≤ -x) (h2 : -x < (2 : ℚ) ^ (e + 1)) (hemin : -1022 ≤ e)
    (hn : |-x / (2 : ℚ) ^ (e - 52) - n| < 1 / 2)
    (hy : -(n * (2 : ℚ) ^ (e - 52)) = y) : rnd64 x = y :=
  rnd_eval_neg 53 (-1022) x y e n h1 h2 hemin
    (by rw [show e - ((53 : ℕ) : ℤ) + 1 = e - 52 by push_cast; ring]; exact hn)
    (by rw [show e - ((53 : ℕ) : ℤ) + 1 = e - 52 by push_cast; ring]; exact hy)

theorem rnd32_zero : rnd32 0 = 0 := by
  simp [rnd32, rnd, rndAbs]

theorem rnd64_zero : rnd64 0 = 0 := by
  simp [rnd64, rnd, rndAbs]

theorem rnd_neg_natCast (p : ℕ) (hp : 1 ≤ p) (emin : ℤ) (hemin : emin ≤ 0) (n : ℕ)
    (hn : n < 2 ^ p) : rnd p emin (-(n : ℚ)) = -(n : ℚ) := by
  rcases Nat.eq_zero_or_pos n with h0 | h0
  · subst h0
    simp [rnd, rndAbs]
  have hpos : (0 : ℚ) < n := by exact_mod_cast h0
  unfold rnd
  rw [if_pos (by linarith), neg_neg, rndAbs_natCast p hp emin hemin n hn]

theorem rnd32_le_nat {x : ℚ} (n : ℕ) (hn : n < 2 ^ 24) (h : x ≤ n) : rnd32 x ≤ n := by
  have := rnd32_mono h
  rwa [rnd32_natCast n hn] at this

theorem nat_le_rnd32 {x : ℚ} (n : ℕ) (hn : n < 2 ^ 24) (h : (n : ℚ) ≤ x) : (n : ℚ) ≤ rnd32 x := by
  have := rnd32_mono h
  rwa [rnd32_natCast n hn] at this

theorem neg_nat_le_rnd32 {x : ℚ} (n : ℕ) (hn : n < 2 ^ 24) (h : -(n : ℚ) ≤ x) :
    -(n : ℚ) ≤ rnd32 x := by
  have := rnd32_mono h
  rwa [show rnd32 (-(n : ℚ)) = -(n : ℚ) from
    rnd_neg_natCast 24 (by norm_num) _ (by norm_num) n hn] at this

theorem rnd64_le_nat {x : ℚ} (n : ℕ) (hn : n < 2 ^ 53) (h : x ≤ n) : rnd64 x ≤ n := by
  have := rnd64_mono h
  rwa [rnd64_natCast n hn] at this

theorem nat_le_rnd64 {x : ℚ} (n : ℕ) (hn : n < 2 ^ 53) (h : (n : ℚ) ≤ x) : (n : ℚ) ≤ rnd64 x := by
  have := rnd64_mono h
  rwa [rnd64_natCast n hn] at this

/-- In binary32 each complement of `GetHue` / `ConvertRGB2HLS` lies in `[0, 1]`. -/
theorem complement_f32_bounds (c : e1nColor) (x : ℚ)
    (hx : x ≤ GetMaxRGB c) (hx' : GetMinRGB c ≤ x) :
    0 ≤ (if rnd32 (GetMaxRGB c - GetMinRGB c) = 0 then 0
          else rnd32 (rnd32 (GetMaxRGB c - x) / rnd32 (GetMaxRGB c - GetMinRGB c))) ∧
    (if rnd32 (GetMaxRGB c - GetMinRGB c) = 0 then 0
          else rnd32 (rnd32 (GetMaxRGB c - x) / rnd32 (GetMaxRGB c - GetMinRGB c))) ≤ 1 := by
  split_ifs with hd
  · exact ⟨le_refl _, zero_le_one⟩
  · have hnum0 : (0 : ℚ) ≤ rnd32 (GetMaxRGB c - x) := by
      have := nat_le_rnd32 (x := GetMaxRGB c - x) 0 (by norm_num) (by push_cast; linarith)
      simpa using this
    have hnumd : rnd32 (GetMaxRGB c - x) ≤ rnd32 (GetMaxRGB c - GetMinRGB c) :=
      rnd32_mono (by linarith)
    have hd0 : (0 : ℚ) ≤ rnd32 (GetMaxRGB c - GetMinRGB c) := le_trans hnum0 hnumd
    have hdpos : (0 : ℚ) < rnd32 (GetMaxRGB c - GetMinRGB c) := lt_of_le_of_ne hd0 (Ne.symm hd)
    constructor
    · have := nat_le_rnd32
        (x := rnd32 (GetMaxRGB c - x) / rnd32 (GetMaxRGB c - GetMinRGB c)) 0 (by norm_num)
        (by push_cast; exact div_nonneg hnum0 hd0)
      simpa using this
    · have := rnd32_le_nat
        (x := rnd32 (GetMaxRGB c - x) / rnd32 (GetMaxRGB c - GetMinRGB c)) 1 (by norm_num)
        (by push_cast; exact (div_le_one hdpos).2 hnumd)
      simpa using this

/-- The degree value of any of the three hue branches lies in `[-60, 300]`. -/
theorem hue_branch_f32_bounds (Rc Gc Bc : ℚ) (P Q : Prop) [Decidable P] [Decidable Q]
    (R0 : 0 ≤ Rc) (R1 : Rc ≤ 1) (G0 : 0 ≤ Gc) (G1 : Gc ≤ 1) (B0 : 0 ≤ Bc) (B1 : Bc ≤ 1) :
    -60 ≤ (if P then rnd32 (60 * rnd32 (Bc - Gc))
        else if Q then rnd32 (rnd64 (60 * rnd64 (rnd64 (2 + Rc) - Bc)))
        else rnd32 (rnd64 (60 * rnd64 (rnd64 (4 + Gc) - Rc)))) ∧
    (if P then rnd32 (60 * rnd32 (Bc - Gc))
        else if Q then rnd32 (rnd64 (60 * rnd64 (rnd64 (2 + Rc) - Bc)))
        else rnd32 (rnd64 (60 * rnd64 (rnd64 (4 + Gc) - Rc)))) ≤ 300 := by
  split_ifs
  · have d0 : -((1 : ℕ) : ℚ) ≤ rnd32 (Bc - Gc) :=
      neg_nat_le_rnd32 1 (by norm_num) (by push_cast; linarith)
    have d1 : rnd32 (Bc - Gc) ≤ ((1 : ℕ) : ℚ) :=
      rnd32_le_nat 1 (by norm_num) (by push_cast; linarith)
    push_cast at d0 d1
    have h0 : -((60 : ℕ) : ℚ) ≤ rnd32 (60 * rnd32 (Bc - Gc)) :=
      neg_nat_le_rnd32 60 (by norm_num) (by push_cast; linarith)
    have h1 : rnd32 (60 * rnd32 (Bc - Gc)) ≤ ((60 : ℕ) : ℚ) :=
      rnd32_le_nat 60 (by norm_num) (by push_cast; linarith)
    push_cast at h0 h1
    constructor <;> linarith
  · have u0 : ((2 : ℕ) : ℚ) ≤ rnd64 (2 + Rc) :=
      nat_le_rnd64 2 (by norm_num) (by push_cast; linarith)
    have u1 : rnd64 (2 + Rc) ≤ ((3 : ℕ) : ℚ) :=
      rnd64_le_nat 3 (by norm_num) (by push_cast; linarith)
    push_cast at u0 u1
    have w0 : ((1 : ℕ) : ℚ) ≤ rnd64 (rnd64 (2 + Rc) - Bc) :=
      nat_le_rnd64 1 (by norm_num) (by push_cast; linarith)
    have w1 : rnd64 (rnd64 (2 + Rc) - Bc) ≤ ((3 : ℕ) : ℚ) :=
      rnd64_le_nat 3 (by norm_num) (by push_cast; linarith)
    push_cast at w0 w1
    have z0 : ((60 : ℕ) : ℚ) ≤ rnd64 (60 * rnd64 (rnd64 (2 + Rc) - Bc)) :=
      nat_le_rnd64 60 (by norm_num) (by push_cast; linarith)
    have z1 : rnd64 (60 * rnd64 (rnd64 (2 + Rc) - Bc)) ≤ ((180 : ℕ) : ℚ) :=
      rnd64_le_nat 180 (by norm_num) (by push_cast; linarith)
    have h0 := nat_le_rnd32 60 (by norm_num) z0
    have h1 := rnd32_le_nat 180 (by norm_num) z1
    push_cast at h0 h1
    constructor <;> linarith
  · have u0 : ((4 : ℕ) : ℚ) ≤ rnd64 (4 + Gc) :=
      nat_le_rnd64 4 (by norm_num) (by push_cast; linarith)
    have u1 : rnd64 (4 + Gc) ≤ ((5 : ℕ) : ℚ) :=
      rnd64_le_nat 5 (by norm_num) (by push_cast; linarith)
    push_cast at u0 u1
    have w0 : ((3 : ℕ) : ℚ) ≤ rnd64 (rnd64 (4 + Gc) - Rc) :=
      nat_le_rnd64 3 (by norm_num) (by push_cast; linarith)
    have w1 : rnd64 (rnd64 (4 + Gc) - Rc) ≤ ((5 : ℕ) : ℚ) :=
      rnd64_le_nat 5 (by norm_num) (by push_cast; linarith)
    push_cast at w0 w1
    have z0 : ((180 : ℕ) : ℚ) ≤ rnd64 (60 * rnd64 (rnd64 (4 + Gc) - Rc)) :=
      nat_le_rnd64 180 (by norm_num) (by push_cast; linarith)
    have z1 : rnd64 (60 * rnd64 (rnd64 (4 + Gc) - Rc)) ≤ ((300 : ℕ) : ℚ) :=
      rnd64_le_nat 300 (by norm_num) (by push_cast; linarith)
    have h0 := nat_le_rnd32 180 (by norm_num) z0
    have h1 := rnd32_le_nat 300 (by norm_num) z1
    push_cast at h0 h1
    constructor <;> linarith

/-- The wrap and the division by 360 bring a degree value of `[-60, 300]` into
`[0, 1]`. -/
theorem hue_wrap_f32_bounds (h : ℚ) (h0 : -60 ≤ h) (h1 : h ≤ 300) :
    0 ≤ rnd32 ((if h < 0 then rnd32 (h + 360) else h) / 360) ∧
    rnd32 ((if h < 0 then rnd32 (h + 360) else h) / 360) ≤ 1 := by
  have key : 0 ≤ (if h < 0 then rnd32 (h + 360) else h) ∧
      (if h < 0 then rnd32 (h + 360) else h) ≤ 360 := by
    split_ifs with hneg
    · have a0 : ((300 : ℕ) : ℚ) ≤ rnd32 (h + 360) :=
        nat_le_rnd32 300 (by norm_num) (by push_cast; linarith)
      have a1 : rnd32 (h + 360) ≤ ((360 : ℕ) : ℚ) :=
        rnd32_le_nat 360 (by norm_num) (by push_cast; linarith)
      push_cast at a0 a1
      constructor <;> linarith
    · constructor <;> linarith
  obtain ⟨k0, k1⟩ := key
  constructor
  · have := nat_le_rnd32 (x := (if h < 0 then rnd32 (h + 360) else h) / 360) 0 (by norm_num)
      (by push_cast; exact div_nonneg k0 (by norm_num))
    simpa using this
  · have := rnd32_le_nat (x := (if h < 0 then rnd32 (h + 360) else h) / 360) 1 (by norm_num)
      (by push_cast; rw [div_le_one (by norm_num)]; exact k1)
    simpa using this

/-- In binary32 the hue returned by `GetHue` lies in the closed interval `[0, 1]`. -/
theorem GetHue_f32_bounds (c : e1nColor) : 0 ≤ GetHue_f32 c ∧ GetHue_f32 c ≤ 1 := by
  obtain ⟨hr, hg, hb⟩ := le_GetMaxRGB c
  obtain ⟨mr, mg, mb⟩ := GetMinRGB_le c
  obtain ⟨R0, R1⟩ := complement_f32_bounds c c.r hr mr
  obtain ⟨G0, G1⟩ := complement_f32_bounds c c.g hg mg
  obtain ⟨B0, B1⟩ := complement_f32_bounds c c.b hb mb
  unfold GetHue_f32
  simp only []
  generalize (if rnd32 (GetMaxRGB c - GetMinRGB c) = 0 then 0
    else rnd32 (rnd32 (GetMaxRGB c - c.r) / rnd32 (GetMaxRGB c - GetMinRGB c))) = Rc
    at R0 R1 ⊢
  generalize (if rnd32 (GetMaxRGB c - GetMinRGB c) = 0 then 0
    else rnd32 (rnd32 (GetMaxRGB c - c.g) / rnd32 (GetMaxRGB c - GetMinRGB c))) = Gc
    at G0 G1 ⊢
  generalize (if rnd32 (GetMaxRGB c - GetMinRGB c) = 0 then 0
    else rnd32 (rnd32 (GetMaxRGB c - c.b) / rnd32 (GetMaxRGB c - GetMinRGB c))) = Bc
    at B0 B1 ⊢
  obtain ⟨b0, b1⟩ := hue_branch_f32_bounds Rc Gc Bc (c.r = GetMaxRGB c) (c.g = GetMaxRGB c)
    R0 R1 G0 G1 B0 B1
  exact hue_wrap_f32_bounds _ b0 b1

theorem ConvertRGB2HLS_f32_eq (c : e1nColor) :
    ConvertRGB2HLS_f32 c =
      ⟨GetHue_f32 c, rnd32 (rnd32 (GetMaxRGB c + GetMinRGB c) / 2),
        rnd32 (GetMaxRGB c - GetMinRGB c), c.a⟩ := rfl

/-! ## Binary32 counterexamples -/

/-- C3 counterexample: in binary32 the colour (1/2, 1/4, 1/4 + 2^-25), whose
channels lie in `[0,1]` and are not all equal, has hue exactly 1: the degree value
is `-15 * 2^-21`, and adding 360 rounds to 360. -/
theorem hue_range_binary32_counterexample :
    ¬ ((⟨1 / 2, 1 / 4, 8388609 / 33554432, 1⟩ : e1nColor).r =
          (⟨1 / 2, 1 / 4, 8388609 / 33554432, 1⟩ : e1nColor).g ∧
        (⟨1 / 2, 1 / 4, 8388609 / 33554432, 1⟩ : e1nColor).g =
          (⟨1 / 2, 1 / 4, 8388609 / 33554432, 1⟩ : e1nColor).b) ∧
    GetHue_f32 ⟨1 / 2, 1 / 4, 8388609 / 33554432, 1⟩ = 1 ∧
    ¬ (GetHue_f32 ⟨1 / 2, 1 / 4, 8388609 / 33554432, 1⟩ < 1) := by
  have e1 : rnd32 (1 / 4) = 1 / 4 :=
    rnd32_eval_pos _ _ (-2) 8388608 (by norm_num) (by norm_num) (by norm_num)
      (by norm_num [abs_lt]) (by norm_num)
  have e2 : rnd32 1 = 1 :=
    rnd32_eval_pos _ _ 0 8388608 (by norm_num) (by norm_num) (by norm_num)
      (by norm_num [abs_lt]) (by norm_num)
  have e3 : rnd32 (8388607 / 33554432) = 8388607 / 33554432 :=
    rnd32_eval_pos _ _ (-3) 16777214 (by norm_num) (by norm_num) (by norm_num)
      (by norm_num [abs_lt]) (by norm_num)
  have e4 : rnd32 (8388607 / 8388608) = 8388607 / 8388608 :=
    rnd32_eval_pos _ _ (-1) 16777214 (by norm_num) (by norm_num) (by norm_num)
      (by norm_num [abs_lt]) (by norm_num)
  have e5 : rnd32 (-(1 / 8388608)) = -(1 / 8388608) :=
    rnd32_eval_neg _ _ (-23) 8388608 (by norm_num) (by norm_num) (by norm_num)
      (by norm_num [abs_lt]) (by norm_num)
  have e6 : rnd32 (-(15 / 2097152)) = -(15 / 2097152) :=
    rnd32_eval_neg _ _ (-18) 15728640 (by norm_num) (by norm_num) (by norm_num)
      (by norm_num [abs_lt]) (by norm_num)
  have e7 : rnd32 (754974705 / 2097152) = 360 :=
    rnd32_eval_pos _ _ 8 11796480 (by norm_num) (by norm_num) (by norm_num)
      (by norm_num [abs_lt]) (by norm_num)
  have key : GetHue_f32 ⟨1 / 2, 1 / 4, 8388609 / 33554432, 1⟩ = 1 := by
    norm_num [GetHue_f32, GetMaxRGB, GetMinRGB, rnd32_zero, rnd64_zero, e1, e2, e3, e4, e5, e6, e7]
  refine ⟨by norm_num, key, ?_⟩
  rw [key]
  norm_num

/-- C21 counterexample: in binary32 `ConvertRGB2HLS` maps the colour
(1, 0, 2^-23), whose channels lie in `[0,1]`, to the packed fields (1, 1/2, 1): the
hue field is exactly 1, outside `[0,1)`. -/
theorem forward_range_binary32_counterexample :
    ConvertRGB2HLS_f32 ⟨1, 0, 1 / 8388608, 1⟩ = ⟨1, 1 / 2, 1, 1⟩ ∧
    ¬ ((ConvertRGB2HLS_f32 ⟨1, 0, 1 / 8388608, 1⟩).r < 1) := by
  have e1 : rnd32 1 = 1 :=
    rnd32_eval_pos _ _ 0 8388608 (by norm_num) (by norm_num) (by norm_num)
      (by norm_num [abs_lt]) (by norm_num)
  have e2 : rnd32 (8388607 / 8388608) = 8388607 / 8388608 :=
    rnd32_eval_pos _ _ (-1) 16777214 (by norm_num) (by norm_num) (by norm_num)
      (by norm_num [abs_lt]) (by norm_num)
  have e3 : rnd32 (1 / 2) = 1 / 2 :=
    rnd32_eval_pos _ _ (-1) 8388608 (by norm_num) (by norm_num) (by norm_num)
      (by norm_num [abs_lt]) (by norm_num)
  have e4 : rnd32 (-(1 / 8388608)) = -(1 / 8388608) :=
    rnd32_eval_neg _ _ (-23) 8388608 (by norm_num) (by norm_num) (by norm_num)
      (by norm_num [abs_lt]) (by norm_num)
  have e5 : rnd32 (-(15 / 2097152)) = -(15 / 2097152) :=
    rnd32_eval_neg _ _ (-18) 15728640 (by norm_num) (by norm_num) (by norm_num)
      (by norm_num [abs_lt]) (by norm_num)
  have e6 : rnd32 (754974705 / 2097152) = 360 :=
    rnd32_eval_pos _ _ 8 11796480 (by norm_num) (by norm_num) (by norm_num)
      (by norm_num [abs_lt]) (by norm_num)
  have key : ConvertRGB2HLS_f32 ⟨1, 0, 1 / 8388608, 1⟩ = ⟨1, 1 / 2, 1, 1⟩ := by
    norm_num [ConvertRGB2HLS_f32, GetMaxRGB, GetMinRGB, rnd32_zero, rnd64_zero, e1, e2, e3, e4, e5, e6]
  refine ⟨key, ?_⟩
  rw [key]
  norm_num

/-- C3, as amended. Hue range: in the binary32 arithmetic of the source, for every
colour whose red, green and blue lie in `[0,1]` and are not all equal, `GetHue`
returns `h` with `0 ≤ h ≤ 1` (the value 1 is reached,
`hue_range_binary32_counterexample`); in exact arithmetic, for every colour whose
red, green and blue are not all equal, `0 ≤ h < 1`. -/
theorem hue_range :
    (∀ c : e1nColor, (0 ≤ c.r ∧ c.r ≤ 1) → (0 ≤ c.g ∧ c.g ≤ 1) → (0 ≤ c.b ∧ c.b ≤ 1) →
      ¬ (c.r = c.g ∧ c.g = c.b) → 0 ≤ GetHue_f32 c ∧ GetHue_f32 c ≤ 1) ∧
    (∀ c : e1nColor, ¬ (c.r = c.g ∧ c.g = c.b) → 0 ≤ GetHue c ∧ GetHue c < 1) :=
  ⟨fun c _ _ _ _ => GetHue_f32_bounds c,
   fun c hne => GetHue_bounds c ((delta_ne_zero_iff c).2 hne)⟩

/-- Instance of both parts of `hue_range` at the colour (1/5, 3/7, 9/11). -/
theorem hue_range_witness :
    (0 ≤ GetHue_f32 ⟨1 / 5, 3 / 7, 9 / 11, 1⟩ ∧ GetHue_f32 ⟨1 / 5, 3 / 7, 9 / 11, 1⟩ ≤ 1) ∧
    (0 ≤ GetHue ⟨1 / 5, 3 / 7, 9 / 11, 1⟩ ∧ GetHue ⟨1 / 5, 3 / 7, 9 / 11, 1⟩ < 1) :=
  ⟨hue_range.1 ⟨1 / 5, 3 / 7, 9 / 11, 1⟩ (by norm_num) (by norm_num) (by norm_num)
    (by norm_num),
   hue_range.2 ⟨1 / 5, 3 / 7, 9 / 11, 1⟩ (by norm_num)⟩

/-- C21, as amended. Range of the forward conversion: for every colour with red,
green and blue in `[0,1]`, after `ConvertRGB2HLS` in the binary32 arithmetic of
the source the red field (hue), the green field (lightness) and the blue field
(saturation) all lie in `[0,1]`, so the `[0,1]` channel invariant is preserved
(the hue field 1 is reached, `forward_range_binary32_counterexample`); in exact
arithmetic the hue field is moreover below 1. -/
theorem forward_range (c : e1nColor)
    (hr : 0 ≤ c.r ∧ c.r ≤ 1) (hg : 0 ≤ c.g ∧ c.g ≤ 1) (hb : 0 ≤ c.b ∧ c.b ≤ 1) :
    ((0 ≤ (ConvertRGB2HLS_f32 c).r ∧ (ConvertRGB2HLS_f32 c).r ≤ 1) ∧
     (0 ≤ (ConvertRGB2HLS_f32 c).g ∧ (ConvertRGB2HLS_f32 c).g ≤ 1) ∧
     (0 ≤ (ConvertRGB2HLS_f32 c).b ∧ (ConvertRGB2HLS_f32 c).b ≤ 1)) ∧
    ((0 ≤ (ConvertRGB2HLS c).r ∧ (ConvertRGB2HLS c).r < 1) ∧
     (0 ≤ (ConvertRGB2HLS c).g ∧ (ConvertRGB2HLS c).g ≤ 1) ∧
     (0 ≤ (ConvertRGB2HLS c).b ∧ (ConvertRGB2HLS c).b ≤ 1)) := by
  obtain ⟨M0, M1⟩ := GetMaxRGB_bounds c 0 1 hr hg hb
  obtain ⟨m0, m1⟩ := GetMinRGB_bounds c 0 1 hr hg hb
  have hmM : GetMinRGB c ≤ GetMaxRGB c := le_trans (GetMinRGB_le c).1 (le_GetMaxRGB c).1
  constructor
  · rw [ConvertRGB2HLS_f32_eq]
    simp only []
    have s0 : ((0 : ℕ) : ℚ) ≤ rnd32 (GetMaxRGB c + GetMinRGB c) :=
      nat_le_rnd32 0 (by norm_num) (by push_cast; linarith)
    have s1 : rnd32 (GetMaxRGB c + GetMinRGB c) ≤ ((2 : ℕ) : ℚ) :=
      rnd32_le_nat 2 (by norm_num) (by push_cast; linarith)
    push_cast at s0 s1
    have v0 : ((0 : ℕ) : ℚ) ≤ rnd32 (rnd32 (GetMaxRGB c + GetMinRGB c) / 2) :=
      nat_le_rnd32 0 (by norm_num) (by push_cast; linarith)
    have v1 : rnd32 (rnd32 (GetMaxRGB c + GetMinRGB c) / 2) ≤ ((1 : ℕ) : ℚ) :=
      rnd32_le_nat 1 (by norm_num) (by push_cast; linarith)
    have d0 : ((0 : ℕ) : ℚ) ≤ rnd32 (GetMaxRGB c - GetMinRGB c) :=
      nat_le_rnd32 0 (by norm_num) (by push_cast; linarith)
    have d1 : rnd32 (GetMaxRGB c - GetMinRGB c) ≤ ((1 : ℕ) : ℚ) :=
      rnd32_le_nat 1 (by norm_num) (by push_cast; linarith)
    push_cast at v0 v1 d0 d1
    exact ⟨GetHue_f32_bounds c, ⟨v0, v1⟩, ⟨d0, d1⟩⟩
  · rw [ConvertRGB2HLS_eq]
    simp only [GetVal, GetSat]
    refine ⟨?_, ⟨?_, ?_⟩, ⟨?_, ?_⟩⟩
    · by_cases hd : GetMaxRGB c - GetMinRGB c = 0
      · rw [GetHue_of_delta_zero c hd]
        norm_num
      · exact GetHue_bounds c hd
    · linarith
    · linarith
    · linarith
    · linarith

/-- Instance of `forward_range` at the colour (1/5, 3/7, 9/11). -/
theorem forward_range_witness :
    ((0 ≤ (ConvertRGB2HLS_f32 ⟨1 / 5, 3 / 7, 9 / 11, 1⟩).r ∧
        (ConvertRGB2HLS_f32 ⟨1 / 5, 3 / 7, 9 / 11, 1⟩).r ≤ 1) ∧
     (0 ≤ (ConvertRGB2HLS_f32 ⟨1 / 5, 3 / 7, 9 / 11, 1⟩).g ∧
        (ConvertRGB2HLS_f32 ⟨1 / 5, 3 / 7, 9 / 11, 1⟩).g ≤ 1) ∧
     (0 ≤ (ConvertRGB2HLS_f32 ⟨1 / 5, 3 / 7, 9 / 11, 1⟩).b ∧
        (ConvertRGB2HLS_f32 ⟨1 / 5, 3 / 7, 9 / 11, 1⟩).b ≤ 1)) ∧
    ((0 ≤ (ConvertRGB2HLS ⟨1 / 5, 3 / 7, 9 / 11, 1⟩).r ∧
        (ConvertRGB2HLS ⟨1 / 5, 3 / 7, 9 / 11, 1⟩).r < 1) ∧
     (0 ≤ (ConvertRGB2HLS ⟨1 / 5, 3 / 7, 9 / 11, 1⟩).g ∧
        (ConvertRGB2HLS ⟨1 / 5, 3 / 7, 9 / 11, 1⟩).g ≤ 1) ∧
     (0 ≤ (ConvertRGB2HLS ⟨1 / 5, 3 / 7, 9 / 11, 1⟩).b ∧
        (ConvertRGB2HLS ⟨1 / 5, 3 / 7, 9 / 11, 1⟩).b ≤ 1)) :=
  forward_range ⟨1 / 5, 3 / 7, 9 / 11, 1⟩ (by norm_num) (by norm_num) (by norm_num)

end E1nColor
